import Mathlib

/-!
Verification development for the CTS Gen7 swim-meet bridge
(`SwimLive.py` and `Main.py`).

The Python source is shallowly embedded: pure helper functions become Lean
functions, the mutable object state becomes explicit record-passing, machine
bytes are `Nat` with explicit masking, and operations that can raise
(`IndexError` on an out-of-range list write) return `Option`.

Python `float` quantities of seconds are embedded as integers counting
hundredths of a second (`ℤ`, value = 100 × the Python float): every time
value the program computes is an exact multiple of 0.01 s (the parsers
produce `m*60 + s + f/10` or `m*60 + s + f/100` with integer parts), every
constant it compares against (0.09, 0.25, 0.1, 0.3, 1.0, 5.0) is too, and
multiplication by 100 preserves all of the program's comparisons exactly, so
the integer model is faithful; wall-clock timestamps are likewise modelled
at the same hundredth-of-a-second granularity.

Python dictionaries are embedded as association lists with
overwrite-or-append assignment, Python sets over lane numbers as `Finset ℕ`.
-/

namespace SwimLive

/-! ## Channel display decoder (`_process_byte` in SwimLive.py)

Class constants from both files (they agree):
`SPACE_ASCII = 0x20`, `CHANNELS = 32`, `CHARS_PER_CHANNEL = 8`,
`CONTROL_BYTE_THRESHOLD = 0x7F`, `CLEAR_CHANNEL_THRESHOLD = 190`. -/

def SPACE_ASCII : ℕ := 0x20
def CHANNELS : ℕ := 32
def CHARS_PER_CHANNEL : ℕ := 8
def CONTROL_BYTE_THRESHOLD : ℕ := 0x7F
def CLEAR_CHANNEL_THRESHOLD : ℕ := 190

/-- Decoder state: `self.stream_state` plus `self.display`.
The display is a list of channels, each a list of cell byte values. -/
structure DecState where
  dataReadout : Bool
  channel : ℕ
  display : List (List ℕ)
  deriving DecidableEq

/-- `self.display = [[SPACE_ASCII] * CHARS_PER_CHANNEL for _ in range(CHANNELS)]`,
`self.stream_state = {"data_readout": False, "channel": 0}`. -/
def initDecState : DecState :=
  { dataReadout := false
    channel := 0
    display := List.replicate CHANNELS (List.replicate CHARS_PER_CHANNEL SPACE_ASCII) }

/-- `self.display[channel][offset] = v`: a Python item assignment raises
`IndexError` when an index is out of range, hence `Option`. -/
def setCell (d : List (List ℕ)) (ch off v : ℕ) : Option (List (List ℕ)) :=
  (d.get? ch).bind
    (fun row => if off < row.length then some (d.set ch (row.set off v)) else none)

/-- `self.display[channel] = [SPACE_ASCII] * CHARS_PER_CHANNEL`. -/
def setRow (d : List (List ℕ)) (ch : ℕ) (row : List ℕ) : Option (List (List ℕ)) :=
  if ch < d.length then some (d.set ch row) else none

/-- The data-byte cell value `(segment_data ^ 0x0F) + 48` from `_process_byte`. -/
def nibbleChar (segmentData : ℕ) : ℕ := (segmentData ^^^ 0x0F) + 48

/-- `SwimLive.py._process_byte`, lines 5482-5503.  `none` models a Python
`IndexError` escaping from the buffer writes (which, as proved below, never
happens on states reachable from `initDecState`). -/
def processByte (s : DecState) (byteIn : ℕ) : Option DecState :=
  if byteIn > CONTROL_BYTE_THRESHOLD then
    let dataReadout := (byteIn &&& 1) == 0
    let channel := ((byteIn >>> 1) &&& 0x1F) ^^^ 0x1F
    let s := { s with dataReadout := dataReadout, channel := channel }
    if channel ≥ CHANNELS then some s
    else if byteIn > CLEAR_CHANNEL_THRESHOLD then
      (setRow s.display channel (List.replicate CHARS_PER_CHANNEL SPACE_ASCII)).map
        (fun d => { s with display := d })
    else some s
  else
    if !s.dataReadout then some s
    else
      let segmentNum := (byteIn &&& 0xF0) >>> 4
      if segmentNum ≥ CHARS_PER_CHANNEL then some s
      else
        let segmentData := byteIn &&& 0x0F
        let channel := s.channel
        if channel > 0 ∧ segmentData = 0 then
          (setCell s.display channel segmentNum SPACE_ASCII).map
            (fun d => { s with display := d })
        else
          (setCell s.display channel segmentNum (nibbleChar segmentData)).map
            (fun d => { s with display := d })

/-- Feeding a byte sequence through the decoder (`for byte_val in buffer:
self._process_byte(byte_val)`), propagating a potential `IndexError`. -/
def processBytes (s : DecState) (bs : List ℕ) : Option DecState :=
  match bs with
  | [] => some s
  | b :: rest => (processByte s b).bind (fun s' => processBytes s' rest)

/-- `Main.py._process_byte`, lines 275-305; the constants in `Main.py`
coincide with those of `SwimLive.py`. -/
def processByteMain (s : DecState) (byteIn : ℕ) : Option DecState :=
  if byteIn > CONTROL_BYTE_THRESHOLD then
    let dataReadout := (byteIn &&& 1) == 0
    let channel := ((byteIn >>> 1) &&& 0x1F) ^^^ 0x1F
    let s := { s with dataReadout := dataReadout, channel := channel }
    if channel ≥ CHANNELS then some s
    else if byteIn > CLEAR_CHANNEL_THRESHOLD then
      (setRow s.display channel (List.replicate CHARS_PER_CHANNEL SPACE_ASCII)).map
        (fun d => { s with display := d })
    else some s
  else
    if !s.dataReadout then some s
    else
      let segmentNum := (byteIn &&& 0xF0) >>> 4
      if segmentNum ≥ CHARS_PER_CHANNEL then some s
      else
        let segmentData := byteIn &&& 0x0F
        let channel := s.channel
        if channel > 0 ∧ segmentData = 0 then
          (setCell s.display channel segmentNum SPACE_ASCII).map
            (fun d => { s with display := d })
        else
          (setCell s.display channel segmentNum (nibbleChar segmentData)).map
            (fun d => { s with display := d })

/-- Byte sequences through the `Main.py` decoder. -/
def processBytesMain (s : DecState) (bs : List ℕ) : Option DecState :=
  match bs with
  | [] => some s
  | b :: rest => (processByteMain s b).bind (fun s' => processBytesMain s' rest)

/-- Well-formedness of a decoder state: the channel pointer is in range and
the display is exactly 32 channels of 8 cells. -/
def DecInv (s : DecState) : Prop :=
  s.channel < CHANNELS ∧ s.display.length = CHANNELS ∧
    ∀ row ∈ s.display, row.length = CHARS_PER_CHANNEL

/-- The value held at a display cell. -/
def getCellVal (s : DecState) (ch off : ℕ) : Option ℕ :=
  (s.display.get? ch).bind (fun row => row.get? off)

/-! ## Python string primitives

Lean's built-in `String.trim`, `String.splitOn` and friends are defined via
byte-position recursion that the kernel cannot evaluate, so the Python
string operations used by the program are embedded directly over the
character list of a string (all structurally recursive and hence
computable by `decide`). -/

/-- Python `str.strip()` (whitespace at both ends; the inputs here are
ASCII). -/
def pyStrip (s : String) : String :=
  String.mk (((s.data.dropWhile Char.isWhitespace).reverse.dropWhile Char.isWhitespace).reverse)

/-- Python `str.replace(c, "")` for a single character `c` (the only uses of
`replace` in the embedded code delete one character). -/
def removeChar (c : Char) (s : String) : String :=
  String.mk (s.data.filter (fun x => x ≠ c))

def splitOnCharAux (sep : Char) : List Char → List (List Char)
  | [] => [[]]
  | c :: rest =>
    let r := splitOnCharAux sep rest
    if c = sep then [] :: r
    else match r with
      | [] => [[c]]
      | h :: t => (c :: h) :: t

/-- Python `str.split(sep)` for a single-character separator (keeps empty
pieces, exactly like Python). -/
def splitOnChar (sep : Char) (s : String) : List String :=
  (splitOnCharAux sep s.data).map String.mk

/-! ## Event/heat file parser (`_parse_swimmer_data`)

The function bodies in `SwimLive.py` (lines 5416-5445) and `Main.py`
(lines 164-220) are identical; one embedding covers both.  The filesystem
read `_read_event_file` is the collaborator supplying `lines`, and the
per-event cache is semantically transparent (it only stores this function's
own prior result), so the parser is embedded as a pure function of the
lines. -/

/-- One collected entry: `line = lines[i].strip()`, then
`"" if line == "--" else line`. -/
def cleanLine (l : String) : String :=
  let line := pyStrip l
  if line = "--" then "" else line

/-- `while len(heat_swimmers) < 8: heat_swimmers.append("")`. -/
def pad8 (xs : List String) : List String :=
  xs ++ List.replicate (8 - xs.length) ""

/-- The block collected for the heat starting at 0-based line index `start`:
`for i in range(start_line, min(end_line, len(lines)))` collects the cleaned
lines, then the block is padded to 8 and sliced by `[:8]`. -/
def heatBlock (lines : List String) (start : ℕ) : List String :=
  (pad8 (((lines.drop start).take 8).map cleanLine)).take 8

/-- `any(swimmer.strip() for swimmer in heat_swimmers)`. -/
def heatNonempty (b : List String) : Bool := b.any (fun sw => pyStrip sw ≠ "")

/-- The `while True` heat loop.  The second argument is
`start_line = 10 * heat_num - 9`, advancing by 10 each appended heat; the
first is structural fuel, always supplied large enough (proved below) for
the fuel-exhaustion branch to be unreachable. -/
def heatLoop (lines : List String) : ℕ → ℕ → List (List String)
  | 0, _ => []
  | fuel + 1, start =>
    if lines.length ≤ start then []
    else
      let block := heatBlock lines start
      if heatNonempty block then block :: heatLoop lines fuel (start + 10)
      else []

/-- `_parse_swimmer_data` on the already-read file lines. -/
def parseSwimmerData (lines : List String) : List (List String) :=
  if lines.length < 10 then [] else heatLoop lines lines.length 1

/-- A 26-line roster file with pairwise distinct line contents. -/
def c1DemoLines : List String :=
  ["L01", "L02", "L03", "L04", "L05", "L06", "L07", "L08", "L09", "L10",
   "L11", "L12", "L13", "L14", "L15", "L16", "L17", "L18", "L19", "L20",
   "L21", "L22", "L23", "L24", "L25", "L26"]

/-! ## Race timing state machine (SwimLive.py)

The continuously polled machine: each main-loop iteration (SwimLive.py lines
6187-6199) reads the decoded buffer (event/heat text, race-clock text,
per-lane time/place text, per-lane on flags) and the wall clock, and runs
`_handle_event_change` / `_handle_time_update` / `_handle_finish_times` /
`_check_lane_activity`.  Those buffer reads and `time.time()` form the
iteration's observation.  Python dicts keyed by `str(lane)` are association
lists; Python sets of lanes are `Finset ℕ`; `float` seconds are integers
counting hundredths of a second, which is exact for every value and
comparison this machine performs. -/

/-- Python `s.isdigit()`: non-empty and all digits. -/
def pyIsdigit (s : String) : Bool := !s.data.isEmpty && s.data.all Char.isDigit

def digitsToNat (cs : List Char) : ℕ := cs.foldl (fun a c => a * 10 + (c.toNat - 48)) 0

/-- Python `int(s)` for strings: optional surrounding whitespace, optional
sign, at least one digit; anything else raises `ValueError` (`none`). -/
def pyInt? (s : String) : Option ℤ :=
  match (pyStrip s).data with
  | [] => none
  | c :: rest =>
    if c = '-' then
      if !rest.isEmpty && rest.all Char.isDigit then some (-(digitsToNat rest : ℤ)) else none
    else if c = '+' then
      if !rest.isEmpty && rest.all Char.isDigit then some (digitsToNat rest : ℤ) else none
    else
      if (c :: rest).all Char.isDigit then some (digitsToNat (c :: rest) : ℤ) else none

/-- `any(c.isdigit() and c != '0' for c in s)`. -/
def hasNonzeroDigit (s : String) : Bool := s.data.any (fun c => c.isDigit && c ≠ '0')

/-- Python `str.upper()` (ASCII). -/
def toUpperStr (s : String) : String := String.mk (s.data.map Char.toUpper)

/-- Python `str.split()` with no separator: split on whitespace, dropping
empty pieces. -/
def splitWS (s : String) : List String :=
  ((s.data.splitOnP Char.isWhitespace).map String.mk).filter (fun w => w ≠ "")

/-- Python `str.zfill(width)`. -/
def pyZfill (width : ℕ) (s : String) : String :=
  let cs := s.data
  if width ≤ cs.length then s
  else match cs with
    | c :: rest =>
      if c = '+' ∨ c = '-' then String.mk (c :: (List.replicate (width - cs.length) '0' ++ rest))
      else String.mk (List.replicate (width - cs.length) '0' ++ cs)
    | [] => String.mk (List.replicate width '0')

/-- Python `str.ljust(width, fill)`. -/
def pyLjust (width : ℕ) (fill : Char) (s : String) : String :=
  String.mk (s.data ++ List.replicate (width - s.data.length) fill)

/-- `_parse_time_to_seconds` (SwimLive.py lines 5643-5667), returning the
parsed time in hundredths of a second (100 × the Python float result, which
is exact: every produced value is `m*60 + s + f/10` or `m*60 + s + f/100`
with integer parts).  Any `ValueError` or `IndexError` inside the `try`
yields `None`. -/
def parseTimeToSeconds (timeStr : String) : Option ℤ :=
  let cleanTime := pyStrip timeStr
  if cleanTime.data.contains ':' ∧ cleanTime.data.contains '.' then
    let parts := splitOnChar ':' cleanTime
    let minutesStr := pyStrip (parts.getD 0 "")
    (if minutesStr = "" then some (0 : ℤ) else pyInt? minutesStr).bind fun minutes =>
    let secParts := splitOnChar '.' (parts.getD 1 "")
    (pyInt? (pyStrip (secParts.getD 0 ""))).bind fun seconds =>
    (match secParts.get? 1 with
     | none => none
     | some fs => some (pyStrip fs)).bind fun fracStr =>
    if fracStr.data.length = 1 then
      (pyInt? fracStr).map fun f => minutes * 6000 + seconds * 100 + f * 10
    else
      (pyInt? (String.mk (fracStr.data.take 2))).map
        fun f => minutes * 6000 + seconds * 100 + f
  else if cleanTime.data.contains '.' then
    let parts := splitOnChar '.' cleanTime
    (pyInt? (pyStrip (parts.getD 0 ""))).bind fun seconds =>
    let fracStr := pyStrip (parts.getD 1 "")
    if fracStr.data.length = 1 then
      (pyInt? fracStr).map fun f => seconds * 100 + f * 10
    else
      (pyInt? (String.mk (fracStr.data.take 2))).map
        fun f => seconds * 100 + f
  else none

/-- `_extract_distance_from_event_name` (SwimLive.py lines 5355-5368): the
first whitespace-separated word of the form `<digits>M` (case-insensitive),
as an integer. -/
def extractDistance (eventName : String) : Option ℕ :=
  (splitWS eventName).findSome? (fun word =>
    let wl := word.data.map Char.toLower
    if wl.getLast? = some 'm' ∧ (!wl.dropLast.isEmpty && wl.dropLast.all Char.isDigit) = true then
      some (digitsToNat wl.dropLast)
    else none)

/-- Timing constants (SwimLive.py lines 39-41), in hundredths of a second:
0.1 s, 0.25 s and 5.0 s. -/
def TIMER_SYNC_INTERVAL : ℤ := 10
def TIMER_LATENCY_COMPENSATION : ℤ := 25
def DQ_STALE_TIMEOUT : ℤ := 500

structure SwimmerInfo where
  name : String
  club : String
  deriving DecidableEq

/-- The outbound WebSocket messages (`_send_websocket_data` payloads)
produced by the state machine, one constructor per dict shape. -/
inductive Msg where
  | eventUpdate (eventName eventID heatName : String) (lanes : List (String × SwimmerInfo))
  | heatUpdate (heatName : String) (lanes : List (String × SwimmerInfo))
  | saved
  | timerSync (running : Bool) (time : ℤ) (timestamp : ℤ)
  | timerStart (time : ℤ) (timestamp : ℤ) (activeLanes : List ℕ) (totalActive : ℕ)
  | activeLanesUpdate (activeLanes : List ℕ) (totalActive : ℕ)
  | disqualification (lane : ℕ)
  | finishTime (lane : ℕ) (time place swimmer timeType : String)
      (timeNumber : ℕ) (label : String)
  deriving DecidableEq

/-- The race-state fields of the object that the four handlers read and
write (`__init__`, SwimLive.py lines 72-92). -/
structure SLState where
  lastEvent : String
  lastHeat : String
  lastEventName : String
  lastRaceTime : String
  lastSwimmers : List (String × SwimmerInfo)
  lastFinishTimes : List (String × String)
  laneTimeCounts : List (String × ℕ)
  expectedTimesPerLane : ℕ
  activeLanes : Finset ℕ
  lastActiveLanes : Finset ℕ
  lastLaneCheckTime : ℤ
  savedSentForHeat : Bool
  dqSentForHeat : Finset ℕ
  timerRunning : Bool
  timerStartTime : Option ℤ
  timerOffset : ℤ
  lastSyncTime : ℤ
  pendingActiveLanes : Option (Finset ℕ)
  deriving DecidableEq

/-- Python `d.get(k, dflt)`. -/
def dictGet {α : Type} (d : List (String × α)) (k : String) (dflt : α) : α :=
  (d.lookup k).getD dflt

/-- Python `d[k] = v`: overwrite in place if present, else append. -/
def dictSet {α : Type} (d : List (String × α)) (k : String) (v : α) : List (String × α) :=
  if (d.lookup k).isSome then d.map (fun p => if p.1 = k then (k, v) else p)
  else d ++ [(k, v)]

/-- `{str(i): 0 for i in range(1, 9)}`. -/
def initLaneTimeCounts : List (String × ℕ) :=
  [("1", 0), ("2", 0), ("3", 0), ("4", 0), ("5", 0), ("6", 0), ("7", 0), ("8", 0)]

/-- The `__init__` values of the race-state fields. -/
def initSLState : SLState where
  lastEvent := ""
  lastHeat := ""
  lastEventName := ""
  lastRaceTime := ""
  lastSwimmers := []
  lastFinishTimes := []
  laneTimeCounts := initLaneTimeCounts
  expectedTimesPerLane := 1
  activeLanes := ∅
  lastActiveLanes := ∅
  lastLaneCheckTime := 0
  savedSentForHeat := false
  dqSentForHeat := ∅
  timerRunning := false
  timerStartTime := none
  timerOffset := 0
  lastSyncTime := 0
  pendingActiveLanes := none

/-- The filesystem collaborators of the state machine: `_get_event_name` and
`_get_swimmers_for_heat` are deterministic functions of the roster files (and
their transparent caches), abstracted as an environment. -/
structure Ctx where
  eventNameOf : String → String
  swimmersOf : String → String → List (String × SwimmerInfo)

/-- One main-loop iteration's view of the decoded display buffer and the
wall clock: the results of `_get_event_and_heat`, `_get_race_time`,
`_get_lane_time(1..8)` (time and place text per lane), `_is_lane_active(1..8)`
and `time.time()` (one timestamp per iteration). -/
structure Obs where
  event : String
  heat : String
  raceTime : String
  laneData : List (String × String)
  laneOn : List Bool
  now : ℤ
  deriving DecidableEq

/-- `_handle_event_change` (SwimLive.py lines 5690-5736).  In the
event-change branch `if distance:` is falsy both on `None` and on `0`. -/
def handleEventChange (ctx : Ctx) (s : SLState) (event heat : String) :
    SLState × List Msg :=
  if event ≠ s.lastEvent then
    let eventName := ctx.eventNameOf event
    let displayHeat := if heat ≠ "" then "HEAT " ++ heat else "N/A"
    let swimmers := ctx.swimmersOf event heat
    let expected := match extractDistance eventName with
      | some d => if d ≠ 0 then d / 50 else 1
      | none => 1
    ({ s with
        lastEventName := eventName
        lastSwimmers := swimmers
        lastFinishTimes := []
        expectedTimesPerLane := expected
        laneTimeCounts := initLaneTimeCounts
        savedSentForHeat := false
        dqSentForHeat := ∅
        lastEvent := event
        lastHeat := heat },
     [Msg.eventUpdate (toUpperStr eventName) event displayHeat swimmers])
  else if heat ≠ s.lastHeat then
    let displayHeat := if heat ≠ "" then "HEAT " ++ heat else "N/A"
    let swimmers := ctx.swimmersOf event heat
    ({ s with
        lastSwimmers := swimmers
        lastFinishTimes := []
        laneTimeCounts := initLaneTimeCounts
        savedSentForHeat := false
        dqSentForHeat := ∅
        lastEvent := event
        lastHeat := heat },
     [Msg.heatUpdate displayHeat swimmers])
  else
    ({ s with lastEvent := event, lastHeat := heat }, [])

/-- `_is_race_data_complete` (SwimLive.py lines 5669-5683). -/
def isRaceDataComplete (s : SLState) : Bool :=
  if s.activeLanes = ∅ ∨ s.expectedTimesPerLane = 0 then false
  else decide (∀ lane ∈ s.activeLanes,
    ¬ dictGet s.laneTimeCounts (toString lane) 0 < s.expectedTimesPerLane)

/-- The stop test of `_handle_time_update`:
`is_empty or current_seconds is None or current_seconds <= 0.09`. -/
def isStopReading (raceTime : String) : Bool :=
  let cleaned := removeChar '.' (removeChar ':' (removeChar ' ' raceTime))
  let isEmpty := cleaned = "" || !(hasNonzeroDigit cleaned)
  match parseTimeToSeconds raceTime with
  | none => true
  | some q => isEmpty || q ≤ 9

/-- `_handle_time_update` (SwimLive.py lines 5738-5778); `now` is
`time.time()` during this call.  `_handle_timer_state_change` only drives
the external OBS scene controller and does not touch this state. -/
def handleTimeUpdate (s : SLState) (raceTime : String) (now : ℤ) :
    SLState × List Msg :=
  if isStopReading raceTime then
    if s.timerRunning then
      let sendSaved := !s.savedSentForHeat && isRaceDataComplete s
      ({ s with
          timerRunning := false
          savedSentForHeat := s.savedSentForHeat || sendSaved
          lastRaceTime := raceTime },
       (if sendSaved then [Msg.saved] else []) ++ [Msg.timerSync false 0 now])
    else ({ s with lastRaceTime := raceTime }, [])
  else
    match parseTimeToSeconds raceTime with
    | none => ({ s with lastRaceTime := raceTime }, [])
    | some cs =>
      let compensated := cs + TIMER_LATENCY_COMPENSATION
      if !s.timerRunning then
        ({ s with
            timerRunning := true
            timerStartTime := some now
            timerOffset := compensated
            lastRaceTime := raceTime },
         [Msg.timerStart compensated now (s.activeLanes.sort (· ≤ ·)) s.activeLanes.card])
      else if now - s.lastSyncTime ≥ TIMER_SYNC_INTERVAL then
        ({ s with lastSyncTime := now, lastRaceTime := raceTime },
         [Msg.timerSync true compensated now])
      else ({ s with lastRaceTime := raceTime }, [])

/-- The DQ test of one lane iteration:
`is_dq = bool(place.strip()) and not place.strip().isdigit()`. -/
def dqFlagged (o : Obs) (lane : ℕ) : Bool :=
  let place := (o.laneData.getD (lane - 1) ("", "")).2
  !(pyStrip place).data.isEmpty && !(pyIsdigit (pyStrip place))

/-- The `if is_dq:` block of the lane loop of `_handle_finish_times`
(SwimLive.py lines 5793-5831), reached with the flag set.  The enclosing
function has already checked `self.timer_running`. -/
def laneDQStep (s : SLState) (o : Obs) (lane : ℕ) : SLState × List Msg :=
  let laneStr := toString lane
  if lane ∈ s.dqSentForHeat then
    ({ s with lastFinishTimes := dictSet s.lastFinishTimes laneStr "DQ" }, [])
  else
    let suppressed : Bool := match s.timerRunning, s.timerStartTime with
      | true, some t => decide (o.now - t < DQ_STALE_TIMEOUT)
      | _, _ => false
    if suppressed then
      ({ s with lastFinishTimes := dictSet s.lastFinishTimes laneStr "DQ" }, [])
    else
      ({ s with
          dqSentForHeat := insert lane s.dqSentForHeat
          lastFinishTimes := dictSet s.lastFinishTimes laneStr "DQ" },
       [Msg.disqualification lane])

/-- The validation and formatting chain of the time path of the lane loop
(SwimLive.py lines 5833-5899): every `continue` is `none`; on acceptance it
returns `(time_cleaned, formatted_time, place-for-output, swimmer_name)`. -/
def laneTimeAccept (s : SLState) (o : Obs) (lane : ℕ) :
    Option (String × String × String × String) :=
  let laneTime := (o.laneData.getD (lane - 1) ("", "")).1
  let place := (o.laneData.getD (lane - 1) ("", "")).2
  let laneStr := toString lane
  if laneTime = "" then none
  else
    let staleSkip : Bool := match parseTimeToSeconds s.lastRaceTime with
      | some q => decide (q ≠ 0 ∧ q < 100)
      | none => false
    if staleSkip then none
    else
      let timeCleaned := removeChar ' ' laneTime
      if timeCleaned = dictGet s.lastFinishTimes laneStr "" then none
      else if ¬ (timeCleaned.data.contains ':' ∧ timeCleaned.data.contains '.') then none
      else
        let digitsOnly := removeChar '.' (removeChar ':' timeCleaned)
        if hasNonzeroDigit digitsOnly = false then none
        else if (digitsOnly.data.filter (fun c => c.isDigit && c ≠ '0')).length < 2 then none
        else
          let parts := splitOnChar ':' timeCleaned
          if parts.length ≠ 2 then none
          else
            let secondsPart := parts.getD 1 ""
            if secondsPart.data.contains '.' = false then none
            else
              let secSplit := splitOnChar '.' secondsPart
              if secSplit.length ≠ 2 then none
              else
                let minutesRaw := pyStrip (parts.getD 0 "")
                let minutes0 := if minutesRaw ≠ "" ∧ pyIsdigit minutesRaw = true
                                then minutesRaw else "00"
                let seconds0 := if pyStrip (secSplit.getD 0 "") ≠ ""
                                then pyStrip (secSplit.getD 0 "") else "00"
                let hundredths0 := if pyStrip (secSplit.getD 1 "") ≠ ""
                                   then pyStrip (secSplit.getD 1 "") else "00"
                let minutes := pyZfill 2 minutes0
                let seconds := pyZfill 2 seconds0
                let hundredths := String.mk ((pyLjust 2 '0' hundredths0).data.take 2)
                let formatted := minutes ++ ":" ++ seconds ++ "." ++ hundredths
                let swimmerName := (dictGet s.lastSwimmers laneStr ⟨"", ""⟩).name
                if swimmerName = "" then none
                else
                  let placeOut := if place ≠ "" ∧ pyIsdigit place = true then place else ""
                  some (timeCleaned, formatted, placeOut, swimmerName)

/-- The time-processing part of the lane loop of `_handle_finish_times`
(SwimLive.py lines 5833-5931), reached with the DQ flag clear: on an
accepted reading it stores the cleaned time, increments the lane's count and
emits the `FinishTime` message. -/
def laneTimeStep (s : SLState) (o : Obs) (lane : ℕ) : SLState × List Msg :=
  match laneTimeAccept s o lane with
  | none => (s, [])
  | some (timeCleaned, formatted, placeOut, swimmerName) =>
    let laneStr := toString lane
    let newCount := dictGet s.laneTimeCounts laneStr 0 + 1
    let pair2 := if newCount < s.expectedTimesPerLane
                 then ("SPLIT", "Split " ++ toString newCount)
                 else ("FINISH", "Finish")
    ({ s with
        lastFinishTimes := dictSet s.lastFinishTimes laneStr timeCleaned
        laneTimeCounts := dictSet s.laneTimeCounts laneStr newCount },
     [Msg.finishTime lane formatted placeOut swimmerName pair2.1 newCount pair2.2])

/-- One lane iteration of the `for lane in range(1, 9)` loop of
`_handle_finish_times` (SwimLive.py lines 5786-5931). -/
def laneFinishStep (s : SLState) (o : Obs) (lane : ℕ) : SLState × List Msg :=
  if dqFlagged o lane then laneDQStep s o lane else laneTimeStep s o lane

/-- The sequential `for lane in range(1, 9)` loop. -/
def lanesLoop (s : SLState) (o : Obs) : List ℕ → SLState × List Msg
  | [] => (s, [])
  | lane :: rest =>
    let r := laneFinishStep s o lane
    let r2 := lanesLoop r.1 o rest
    (r2.1, r.2 ++ r2.2)

/-- `_handle_finish_times` (SwimLive.py lines 5780-5931). -/
def handleFinishTimes (s : SLState) (o : Obs) : SLState × List Msg :=
  if s.timerRunning = false then (s, [])
  else lanesLoop s o [1, 2, 3, 4, 5, 6, 7, 8]

/-- `_check_lane_activity` (SwimLive.py lines 5594-5641): throttled to one
sample per 0.3 s, debounced over two consecutive equal samples, emitting
only on an accepted change. -/
def checkLaneActivity (s : SLState) (o : Obs) : SLState × List Msg :=
  if o.now - s.lastLaneCheckTime < 30 then (s, [])
  else
    let s1 := { s with lastLaneCheckTime := o.now }
    let currentActive : Finset ℕ :=
      (Finset.Icc 1 8).filter (fun lane =>
        o.laneOn.getD (lane - 1) false = true ∧
        pyStrip (dictGet s1.lastSwimmers (toString lane) ⟨"", ""⟩).name ≠ "")
    if s1.pendingActiveLanes = some currentActive then
      if currentActive ≠ s1.lastActiveLanes then
        ({ s1 with
            lastActiveLanes := currentActive
            activeLanes := currentActive
            pendingActiveLanes := some currentActive },
         [Msg.activeLanesUpdate (currentActive.sort (· ≤ ·)) currentActive.card])
      else ({ s1 with pendingActiveLanes := some currentActive }, [])
    else ({ s1 with pendingActiveLanes := some currentActive }, [])

/-- One iteration of the SwimLive main loop (lines 6187-6199). -/
def loopIter (ctx : Ctx) (s : SLState) (o : Obs) : SLState × List Msg :=
  let r1 := if o.event ≠ s.lastEvent ∨ o.heat ≠ s.lastHeat
            then handleEventChange ctx s o.event o.heat else (s, [])
  let r2 := if o.raceTime ≠ r1.1.lastRaceTime
            then handleTimeUpdate r1.1 o.raceTime o.now else (r1.1, [])
  let r3 := handleFinishTimes r2.1 o
  let r4 := checkLaneActivity r3.1 o
  (r4.1, r1.2 ++ r2.2 ++ r3.2 ++ r4.2)

/-- Iterating the main loop over a sequence of observations. -/
def runMachine (ctx : Ctx) (s : SLState) : List Obs → SLState × List Msg
  | [] => (s, [])
  | o :: rest =>
    let r1 := loopIter ctx s o
    let r2 := runMachine ctx r1.1 rest
    (r2.1, r1.2 ++ r2.2)

/-- Occurrences of `Disqualification{lane = j}` in an outbound message list. -/
def countDQ (j : ℕ) (msgs : List Msg) : ℕ := msgs.count (Msg.disqualification j)

/-- Occurrences of the `Saved` status message in an outbound message list. -/
def countSaved (msgs : List Msg) : ℕ := msgs.count Msg.saved

/-- 1 while a heat may still emit `Disqualification{lane = j}`, else 0. -/
def dqToken (j : ℕ) (s : SLState) : ℕ := if j ∈ s.dqSentForHeat then 0 else 1

/-- 1 while the heat may still emit `Saved`, else 0. -/
def savedToken (s : SLState) : ℕ := if s.savedSentForHeat = true then 0 else 1

/-- Environment used by the C2 counterexample: the roster title of every
event cleans to "OPEN 25M FREE". -/
def c2Ctx : Ctx where
  eventNameOf := fun _ => "OPEN 25M FREE"
  swimmersOf := fun _ _ => []

/-- Environment used by the C2 and C4 witnesses. -/
def plainCtx : Ctx where
  eventNameOf := fun _ => "OPEN 100M FREE"
  swimmersOf := fun _ _ => []

/-- State used by the C4 witness: clock running, one active lane whose
single expected time has been received, Saved not yet sent. -/
def c4WitState : SLState :=
  { initSLState with
      timerRunning := true
      timerStartTime := some 0
      lastRaceTime := "00:30.00"
      activeLanes := {1}
      lastSwimmers := [("1", ⟨"Ann A", "AAA"⟩)]
      laneTimeCounts := [("1", 1), ("2", 0), ("3", 0), ("4", 0),
                         ("5", 0), ("6", 0), ("7", 0), ("8", 0)] }

/-- Observation used by the C4 witness: the clock text has gone blank 31
seconds (3100 hundredths) in. -/
def c4WitObs : Obs :=
  ⟨"", "", "", List.replicate 8 ("", ""), List.replicate 8 false, 3100⟩

/-- State used by the C5 witness: clock running since t = 0. -/
def c5WitState : SLState :=
  { initSLState with
      timerRunning := true
      timerStartTime := some 0
      lastRaceTime := "00:10.00" }

/-- Observation used by the C5 witness: lane 3's place cell reads "D" ten
seconds (1000 hundredths) after clock start. -/
def c5WitObs : Obs :=
  ⟨"", "", "00:10.00",
   [("", ""), ("", ""), ("", "D"), ("", ""), ("", ""), ("", ""), ("", ""), ("", "")],
   List.replicate 8 false, 1000⟩

/-! ## File-transfer reassembler
(`_process_com_packet` / `_save_complete_file`, SwimLive.py lines 5968-6034)

JSON framing and base64 are external codecs: a packet is modelled after
parsing, with `content` the decoded bytes (`[]` plays the role of a missing
or empty `content` field, which Python treats as falsy; no other base64
text decodes to empty bytes).  The roster-directory write becomes the
`written` log.  `buf["parts"]` is an association list with Python-dict
overwrite semantics, and `sorted(buf["parts"].keys())` an insertion sort of
the key list.  The cache invalidation in `_save_complete_file` touches only
the parser caches, which are outside this state. -/

structure ComPacket where
  name : String
  seq : ℕ
  final : Bool
  content : List ℕ
  size : ℕ
  deriving DecidableEq

/-- `{"parts": {}, "final": False, "size": size}`. -/
structure ComBuffer where
  parts : List (ℕ × List ℕ)
  final : Bool
  size : ℕ
  deriving DecidableEq

/-- `self.com_buffers` plus the log of files written to the roster
directory. -/
structure ComState where
  buffers : List (String × ComBuffer)
  written : List (String × List ℕ)
  deriving DecidableEq

/-- Python `buf["parts"][seq] = rawbytes`. -/
def partsSet (parts : List (ℕ × List ℕ)) (k : ℕ) (v : List ℕ) :
    List (ℕ × List ℕ) :=
  if (parts.lookup k).isSome then parts.map (fun p => if p.1 = k then (k, v) else p)
  else parts ++ [(k, v)]

/-- `indexes = sorted(buf["parts"].keys())`, then the concatenation
`for i in indexes: f.write(buf["parts"][i])`. -/
def assembled (parts : List (ℕ × List ℕ)) : List ℕ :=
  (((parts.map Prod.fst).insertionSort (· ≤ ·)).map
    (fun i => (parts.lookup i).getD [])).flatten

/-- `_save_complete_file` (SwimLive.py lines 6011-6034): write the sorted
concatenation under `name`, then `del self.com_buffers[name]`. -/
def saveCompleteFile (s : ComState) (name : String) (buf : ComBuffer) : ComState :=
  { buffers := s.buffers.filter (fun p => p.1 ≠ name)
    written := s.written ++ [(name, assembled buf.parts)] }

/-- Python `self.com_buffers[key] = value` (overwrite or append). -/
def buffersSet (d : List (String × ComBuffer)) (k : String) (v : ComBuffer) :
    List (String × ComBuffer) :=
  if (d.lookup k).isSome then d.map (fun p => if p.1 = k then (k, v) else p)
  else d ++ [(k, v)]

/-- `_process_com_packet` (SwimLive.py lines 5968-6009) after JSON parsing;
malformed records are dropped by the except handlers before this logic. -/
def processComPacket (s : ComState) (p : ComPacket) : ComState :=
  if p.name = "" then s
  else
    let buffers1 := if (s.buffers.lookup p.name).isSome then s.buffers
                    else s.buffers ++ [(p.name, ⟨[], false, p.size⟩)]
    let buf := (buffers1.lookup p.name).getD ⟨[], false, p.size⟩
    let buf1 := if ¬ p.final ∧ p.content ≠ [] then
                  { buf with parts := partsSet buf.parts p.seq p.content }
                else if p.final then { buf with final := true }
                else buf
    let buffers2 := buffersSet buffers1 p.name buf1
    if buf1.final = true ∧ buf1.parts ≠ [] then
      saveCompleteFile { s with buffers := buffers2 } p.name buf1
    else { s with buffers := buffers2 }

/-- The receiver loop feeding complete lines to `_process_com_packet`. -/
def processComPackets (s : ComState) : List ComPacket → ComState
  | [] => s
  | p :: rest => processComPackets (processComPacket s p) rest

/-- A parsed content-chunk record `{name, seq, size, content}`. -/
def chunkPacket (n : String) (c : ℕ × List ℕ) : ComPacket :=
  ⟨n, c.1, false, c.2, c.2.length⟩

/-- A parsed final-marker record `{name, final: true}` (its absent `seq`
and `content` default to 0 and empty; neither is used on this path). -/
def finalPacket (n : String) : ComPacket := ⟨n, 0, true, [], 0⟩

/-- Sequential insertion of chunk records into a parts dict. -/
def insertAll (ps cs : List (ℕ × List ℕ)) : List (ℕ × List ℕ) :=
  cs.foldl (fun a c => partsSet a c.1 c.2) ps

/-- Starting state for the C7 witness: another filename's transfer is in
flight. -/
def c7WitState : ComState :=
  ⟨[("other.scb", ⟨[(0, [9])], false, 1⟩)], []⟩

theorem initDecState_inv : DecInv initDecState := by
  refine ⟨by norm_num [initDecState, CHANNELS], by simp [initDecState], ?_⟩
  intro row hrow
  simp only [initDecState, List.mem_replicate] at hrow
  simp [hrow.2]

theorem setCell_isSome {d : List (List ℕ)} {ch off v : ℕ}
    (hch : ch < d.length) (hoff : ∀ row ∈ d, row.length = CHARS_PER_CHANNEL)
    (ho : off < CHARS_PER_CHANNEL) : ∃ d', setCell d ch off v = some d' := by
  have hget : ∃ row, d.get? ch = some row := by
    rw [List.get?_eq_get hch]; exact ⟨_, rfl⟩
  obtain ⟨row, hrow⟩ := hget
  have hmem : row ∈ d := List.get?_mem hrow
  refine ⟨d.set ch (row.set off v), ?_⟩
  simp only [setCell, hrow, Option.some_bind]
  rw [if_pos]
  rw [hoff row hmem]; exact ho

theorem setCell_shape {d d' : List (List ℕ)} {ch off v : ℕ}
    (h : setCell d ch off v = some d') :
    d'.length = d.length ∧ ∀ row' ∈ d', ∃ row ∈ d, row'.length = row.length := by
  simp only [setCell] at h
  rcases hg : d.get? ch with _ | row
  · rw [hg] at h; exact absurd h (by simp)
  · rw [hg, Option.some_bind] at h
    split_ifs at h with hlt
    cases h
    constructor
    · simp
    · intro row' hrow'
      rcases List.mem_or_eq_of_mem_set hrow' with hmem | heq
      · exact ⟨row', hmem, rfl⟩
      · exact ⟨row, List.get?_mem hg, by simp [heq]⟩

/-- The channel computed from any control byte is below 32 (5 masked bits). -/
theorem control_channel_lt (b : ℕ) : ((b >>> 1) &&& 0x1F) ^^^ 0x1F < CHANNELS := by
  have h1 : (b >>> 1) &&& 0x1F < 2 ^ 5 := Nat.and_lt_two_pow _ (by norm_num)
  have h2 : ((b >>> 1) &&& 0x1F) ^^^ 0x1F < 2 ^ 5 := Nat.xor_lt_two_pow h1 (by norm_num)
  have hC : CHANNELS = 2 ^ 5 := rfl
  omega

theorem processByte_total_inv {s : DecState} (hs : DecInv s) (b : ℕ) :
    ∃ s', processByte s b = some s' ∧ DecInv s' := by
  obtain ⟨hch, hlen, hrows⟩ := hs
  by_cases hb : b > CONTROL_BYTE_THRESHOLD
  · -- control byte
    simp only [processByte, if_pos hb]
    set c := ((b >>> 1) &&& 0x1F) ^^^ 0x1F with hc
    have hcb : c < CHANNELS := control_channel_lt b
    rw [if_neg (by omega)]
    by_cases hclear : b > CLEAR_CHANNEL_THRESHOLD
    · rw [if_pos hclear]
      have hrow : setRow s.display c (List.replicate CHARS_PER_CHANNEL SPACE_ASCII)
          = some (s.display.set c (List.replicate CHARS_PER_CHANNEL SPACE_ASCII)) := by
        simp only [setRow]; rw [if_pos (by omega)]
      rw [hrow]
      refine ⟨_, rfl, hcb, by simpa using hlen, ?_⟩
      intro row hrow'
      rcases List.mem_or_eq_of_mem_set hrow' with hmem | heq
      · exact hrows row hmem
      · simp [heq]
    · rw [if_neg hclear]
      exact ⟨_, rfl, hcb, hlen, hrows⟩
  · -- data byte
    simp only [processByte, if_neg hb]
    by_cases hro : s.dataReadout
    · simp only [hro, Bool.not_true, Bool.false_eq_true, if_false]
      set seg := (b &&& 0xF0) >>> 4 with hseg
      by_cases hsegBig : seg ≥ CHARS_PER_CHANNEL
      · rw [if_pos hsegBig]; exact ⟨s, rfl, hch, hlen, hrows⟩
      · rw [if_neg hsegBig]
        push_neg at hsegBig
        have hchlen : s.channel < s.display.length := by omega
        by_cases hz : s.channel > 0 ∧ b &&& 0x0F = 0
        · rw [if_pos hz]
          obtain ⟨d', hd'⟩ := setCell_isSome hchlen hrows hsegBig (v := SPACE_ASCII)
          rw [hd']
          obtain ⟨hlen', hrows'⟩ := setCell_shape hd'
          refine ⟨_, rfl, hch, show d'.length = CHANNELS by rw [hlen']; exact hlen, ?_⟩
          intro row' hrow'
          obtain ⟨row, hmem, heq⟩ := hrows' row' hrow'
          rw [heq]; exact hrows row hmem
        · rw [if_neg hz]
          obtain ⟨d', hd'⟩ := setCell_isSome hchlen hrows hsegBig (v := nibbleChar (b &&& 0x0F))
          rw [hd']
          obtain ⟨hlen', hrows'⟩ := setCell_shape hd'
          refine ⟨_, rfl, hch, show d'.length = CHANNELS by rw [hlen']; exact hlen, ?_⟩
          intro row' hrow'
          obtain ⟨row, hmem, heq⟩ := hrows' row' hrow'
          rw [heq]; exact hrows row hmem
    · simp only [hro]
      exact ⟨s, by simp, hch, hlen, hrows⟩

theorem processBytes_total_inv {s : DecState} (hs : DecInv s) (bs : List ℕ) :
    ∃ s', processBytes s bs = some s' ∧ DecInv s' := by
  induction bs generalizing s with
  | nil => exact ⟨s, rfl, hs⟩
  | cons b rest ih =>
    obtain ⟨s1, hs1, hinv1⟩ := processByte_total_inv hs b
    obtain ⟨s2, hs2, hinv2⟩ := ih hinv1
    exact ⟨s2, by simp [processBytes, hs1, hs2], hinv2⟩

/-- C9: processing any sequence of input bytes from the initial decoder state
is total and in-bounds: it never hits an out-of-range buffer write (no
`IndexError`, modelled as `none`), the stream state's channel stays in 0..31
and the buffer stays exactly 32 channels of 8 cells; moreover the cell offset
of any data byte (any byte not above `CONTROL_BYTE_THRESHOLD`) is below 8, so
the decoder's offset-out-of-range guard can never fire. -/
theorem c9_decoder_total_inbounds :
    (∀ bs : List ℕ, ∃ s, processBytes initDecState bs = some s ∧
      s.channel < 32 ∧ s.display.length = 32 ∧ ∀ row ∈ s.display, row.length = 8) ∧
    (∀ b : ℕ, b ≤ CONTROL_BYTE_THRESHOLD → (b &&& 0xF0) >>> 4 < 8) := by
  constructor
  · intro bs
    obtain ⟨s, hs, hch, hlen, hrows⟩ := processBytes_total_inv initDecState_inv bs
    exact ⟨s, hs, hch, hlen, hrows⟩
  · intro b hb
    have h1 : b &&& 0xF0 ≤ b := Nat.and_le_left
    have h2 : (b &&& 0xF0) >>> 4 = (b &&& 0xF0) / 16 := by
      rw [Nat.shiftRight_eq_div_pow]
    have hc : CONTROL_BYTE_THRESHOLD = 127 := rfl
    omega

/-- C9 witness: a concrete control/data byte pair processed from the initial
state, with the bounds evaluated. -/
theorem c9_decoder_total_inbounds_witness :
    (∃ s, processBytes initDecState [0x95, 0x23] = some s ∧
      s.channel < 32 ∧ s.display.length = 32 ∧ ∀ row ∈ s.display, row.length = 8) ∧
    ((0x23 : ℕ) ≤ CONTROL_BYTE_THRESHOLD → ((0x23 : ℕ) &&& 0xF0) >>> 4 < 8) :=
  ⟨c9_decoder_total_inbounds.1 [0x95, 0x23],
   fun h => c9_decoder_total_inbounds.2 0x23 h⟩

/-- C6: a control byte above the clear threshold (190) resets all 8 cells of
the channel it addresses to the blank value and leaves every other channel's
cells untouched, for every addressed channel and every prior buffer of the
right length. -/
theorem c6_clear_channel (s : DecState) (b : ℕ)
    (hlen : s.display.length = CHANNELS) (hb : b > CLEAR_CHANNEL_THRESHOLD) :
    ∃ s', processByte s b = some s' ∧
      s'.display.get? (((b >>> 1) &&& 0x1F) ^^^ 0x1F)
        = some (List.replicate CHARS_PER_CHANNEL SPACE_ASCII) ∧
      ∀ ch, ch ≠ ((b >>> 1) &&& 0x1F) ^^^ 0x1F → s'.display.get? ch = s.display.get? ch := by
  have hb' : b > CONTROL_BYTE_THRESHOLD := by
    have h1 : CONTROL_BYTE_THRESHOLD = 127 := rfl
    have h2 : CLEAR_CHANNEL_THRESHOLD = 190 := rfl
    omega
  set c := ((b >>> 1) &&& 0x1F) ^^^ 0x1F with hc
  have hcb : c < CHANNELS := control_channel_lt b
  have hcl : c < s.display.length := by omega
  refine ⟨DecState.mk ((b &&& 1) == 0) c
      (s.display.set c (List.replicate CHARS_PER_CHANNEL SPACE_ASCII)), ?_, ?_, ?_⟩
  · simp only [processByte, if_pos hb', ← hc]
    rw [if_neg (by omega), if_pos hb]
    simp only [setRow, if_pos hcl, Option.map_some']
  · rw [List.get?_eq_getElem?]
    exact List.getElem?_set_eq_of_lt _ hcl
  · intro ch hch
    rw [List.get?_eq_getElem?, List.get?_eq_getElem?]
    exact List.getElem?_set_ne (Ne.symm hch)

/-- C6 witness: clearing with byte 0xC8 from the initial state addresses
channel ((0xC8 >> 1) & 0x1F) ^ 0x1F = 27 and blanks exactly it. -/
theorem c6_clear_channel_witness :
    initDecState.display.length = CHANNELS ∧ (0xC8 : ℕ) > CLEAR_CHANNEL_THRESHOLD ∧
    ∃ s', processByte initDecState 0xC8 = some s' ∧
      s'.display.get? (((0xC8 >>> 1) &&& 0x1F) ^^^ 0x1F)
        = some (List.replicate CHARS_PER_CHANNEL SPACE_ASCII) ∧
      ∀ ch, ch ≠ ((0xC8 >>> 1) &&& 0x1F) ^^^ 0x1F →
        s'.display.get? ch = initDecState.display.get? ch :=
  ⟨by decide, by decide, c6_clear_channel initDecState 0xC8 (by decide) (by decide)⟩

/-- C3 counterexample: the claim asserts the data-byte map is a bijection
from nibbles 0x1..0xF onto the digit characters, but nibble 0x1 maps to byte
62 (the character after '9'), which is not a digit byte (48..57). -/
theorem c3_counterexample :
    nibbleChar 0x1 = 62 ∧ ¬ (48 ≤ nibbleChar 0x1 ∧ nibbleChar 0x1 ≤ 57) := by decide

/-- C3 (amended): restricted to nibbles 0x6..0xF, the data-byte map
n ↦ (n xor 0xF) + 48 is the complement map n ↦ 48 + (15 - n), a bijection
onto the digit bytes '9' (57) down to '0' (48); nibbles 0x1..0x5 map above
'9'.  And a data byte carrying a 0 nibble while the current channel is > 0
sets the addressed cell to the blank value `SPACE_ASCII`. -/
theorem c3_nibble_map :
    ((∀ n, 6 ≤ n → n ≤ 15 → nibbleChar n = 48 + (15 - n)) ∧
     (∀ n m, 6 ≤ n → n ≤ 15 → 6 ≤ m → m ≤ 15 → nibbleChar n = nibbleChar m → n = m) ∧
     (∀ d, 48 ≤ d → d ≤ 57 → ∃ n, 6 ≤ n ∧ n ≤ 15 ∧ nibbleChar n = d) ∧
     (∀ n, 1 ≤ n → n ≤ 5 → 57 < nibbleChar n)) ∧
    (∀ (s : DecState) (b : ℕ), DecInv s → b ≤ CONTROL_BYTE_THRESHOLD →
      s.dataReadout = true → s.channel > 0 → b &&& 0x0F = 0 →
      ∃ s', processByte s b = some s' ∧
        getCellVal s' s.channel ((b &&& 0xF0) >>> 4) = some SPACE_ASCII) := by
  constructor
  · refine ⟨?_, ?_, ?_, ?_⟩
    · intro n h1 h2; interval_cases n <;> rfl
    · intro n m h1 h2 h3 h4 h; interval_cases n <;> interval_cases m <;> simp_all [nibbleChar]
    · intro d h1 h2; interval_cases d
      · exact ⟨15, by decide⟩
      · exact ⟨14, by decide⟩
      · exact ⟨13, by decide⟩
      · exact ⟨12, by decide⟩
      · exact ⟨11, by decide⟩
      · exact ⟨10, by decide⟩
      · exact ⟨9, by decide⟩
      · exact ⟨8, by decide⟩
      · exact ⟨7, by decide⟩
      · exact ⟨6, by decide⟩
    · intro n h1 h2; interval_cases n <;> decide
  · intro s b hs hb hro hchpos hnib
    obtain ⟨hch, hlen, hrows⟩ := hs
    have hseg : (b &&& 0xF0) >>> 4 < CHARS_PER_CHANNEL := by
      have := c9_decoder_total_inbounds.2 b hb
      have h8 : CHARS_PER_CHANNEL = 8 := rfl
      omega
    have hchlen : s.channel < s.display.length := by omega
    obtain ⟨d', hd'⟩ := setCell_isSome hchlen hrows hseg (v := SPACE_ASCII)
    refine ⟨{ s with display := d' }, ?_, ?_⟩
    · have hnotCtl : ¬ b > CONTROL_BYTE_THRESHOLD := by omega
      simp only [processByte, if_neg hnotCtl, hro, Bool.not_true, Bool.false_eq_true,
        if_false, if_neg (not_le.mpr hseg)]
      rw [if_pos ⟨hchpos, hnib⟩, hd']
      rfl
    · -- the written cell holds SPACE_ASCII
      simp only [setCell] at hd'
      rcases hg : s.display.get? s.channel with _ | row
      · rw [hg] at hd'; exact absurd hd' (by simp)
      · rw [hg, Option.some_bind] at hd'
        split_ifs at hd' with hlt
        cases hd'
        simp only [getCellVal]
        rw [List.get?_eq_getElem?, List.getElem?_set_eq_of_lt _ (by omega), Option.some_bind,
          List.get?_eq_getElem?, List.getElem?_set_eq_of_lt _ (by omega)]

/-- C3 witness: blanking lane-channel 1, offset 2, with data byte 0x20 from a
running readout state. -/
theorem c3_nibble_map_witness :
    ∃ s', processByte { initDecState with dataReadout := true, channel := 1 } 0x20 = some s' ∧
      getCellVal s' 1 2 = some SPACE_ASCII := by
  have h := c3_nibble_map.2 { initDecState with dataReadout := true, channel := 1 } 0x20
    ⟨by decide, by decide, by
      intro row hrow
      simp only [initDecState, List.mem_replicate] at hrow
      simp [hrow.2]⟩ (by decide) rfl (by decide) (by decide)
  simpa using h

theorem heatLoop_get? (lines : List String) :
    ∀ (n fuel start : ℕ), lines.length ≤ start + fuel →
      (heatLoop lines fuel start).get? n =
        if ∀ k ≤ n, start + 10 * k < lines.length ∧
            heatNonempty (heatBlock lines (start + 10 * k)) = true
        then some (heatBlock lines (start + 10 * n)) else none := by
  intro n
  induction n with
  | zero =>
    intro fuel start hfuel
    match fuel with
    | 0 =>
      have hlen : lines.length ≤ start := by omega
      simp only [heatLoop, List.get?]
      rw [if_neg]
      intro h
      exact absurd (h 0 (le_refl 0)).1 (by omega)
    | fuel + 1 =>
      simp only [heatLoop]
      by_cases hlen : lines.length ≤ start
      · rw [if_pos hlen, if_neg]
        · rfl
        · intro h
          exact absurd (h 0 (le_refl 0)).1 (by omega)
      · rw [if_neg hlen]
        by_cases hne : heatNonempty (heatBlock lines start) = true
        · simp only [hne, if_true, List.get?]
          rw [if_pos]
          · simp
          · intro k hk
            have : k = 0 := by omega
            subst this
            simpa using ⟨by omega, hne⟩
        · simp only [hne, if_false, List.get?]
          rw [if_neg]
          intro h
          have := (h 0 (le_refl 0)).2
          simp only [Nat.mul_zero, Nat.add_zero] at this
          exact absurd this hne
  | succ n ih =>
    intro fuel start hfuel
    match fuel with
    | 0 =>
      have hlen : lines.length ≤ start := by omega
      simp only [heatLoop, List.get?]
      rw [if_neg]
      intro h
      exact absurd (h 0 (by omega)).1 (by omega)
    | fuel + 1 =>
      simp only [heatLoop]
      by_cases hlen : lines.length ≤ start
      · rw [if_pos hlen, if_neg]
        · rfl
        · intro h
          exact absurd (h 0 (by omega)).1 (by omega)
      · rw [if_neg hlen]
        by_cases hne : heatNonempty (heatBlock lines start) = true
        · simp only [hne, if_true, List.get?]
          rw [ih fuel (start + 10) (by omega)]
          have hidx : ∀ k : ℕ, start + 10 + 10 * k = start + 10 * (k + 1) := by
            intro k; ring
          by_cases hcond : ∀ k ≤ n, start + 10 + 10 * k < lines.length ∧
              heatNonempty (heatBlock lines (start + 10 + 10 * k)) = true
          · rw [if_pos hcond, if_pos]
            · rw [hidx n]
            · intro k hk
              match k with
              | 0 => simpa using ⟨by omega, hne⟩
              | k + 1 =>
                have := hcond k (by omega)
                rw [hidx k] at this
                exact this
          · rw [if_neg hcond, if_neg]
            intro hall
            apply hcond
            intro k hk
            have := hall (k + 1) (by omega)
            rw [hidx k]
            exact this
        · simp only [hne, if_false, List.get?]
          rw [if_neg]
          intro h
          have := (h 0 (by omega)).2
          simp only [Nat.mul_zero, Nat.add_zero] at this
          exact absurd this hne

/-- C1 counterexample: on a 26-line file the code's heat 1 is the file's
source lines 2-9 (1-based), not lines 1-8 as the claim states, and heat 2 is
source lines 12-19, not 11-18: the `10N-9` formula is applied to 0-based
Python indices, shifting every heat down by one source line. -/
theorem c1_counterexample :
    (parseSwimmerData c1DemoLines).get? 0 =
        some ["L02", "L03", "L04", "L05", "L06", "L07", "L08", "L09"] ∧
    (parseSwimmerData c1DemoLines).get? 0 ≠
        some ["L01", "L02", "L03", "L04", "L05", "L06", "L07", "L08"] ∧
    (parseSwimmerData c1DemoLines).get? 1 =
        some ["L12", "L13", "L14", "L15", "L16", "L17", "L18", "L19"] ∧
    (parseSwimmerData c1DemoLines).get? 1 ≠
        some ["L11", "L12", "L13", "L14", "L15", "L16", "L17", "L18"] := by decide

/-- C1 (amended): for a roster file with at least 10 lines, heat N (1-based)
of the parsed swimmer data consists of the file's source lines 10N-8 through
10N-1 in 1-based numbering (0-based indices 10N-9 through 10N-2) — so a
26-line file gives heat 1 = lines 2-9 and heat 2 = lines 12-19 — with a line
whose stripped content equals "--" becoming an empty lane, short final
blocks padded to exactly 8 entries, and enumeration stopping at the first
heat whose 8 entries are all empty or whose start index falls beyond the
file.  `heatBlock lines (10*(n+1) - 9)` is exactly the cleaned, padded slice
`lines[10N-9 : 10N-1]` (0-based) for heat N = n+1. -/
theorem c1_heat_lines :
    ∀ (lines : List String) (n : ℕ),
      (parseSwimmerData lines).get? n =
        if 10 ≤ lines.length ∧
           ∀ k ≤ n, 10 * (k + 1) - 9 < lines.length ∧
             heatNonempty (heatBlock lines (10 * (k + 1) - 9)) = true
        then some (heatBlock lines (10 * (n + 1) - 9)) else none := by
  intro lines n
  by_cases hlen : lines.length < 10
  · simp only [parseSwimmerData, if_pos hlen, List.get?]
    rw [if_neg]
    exact fun h => absurd h.1 (by omega)
  · simp only [parseSwimmerData, if_neg hlen]
    rw [heatLoop_get? lines n lines.length 1 (by omega)]
    have hidx : ∀ k : ℕ, 1 + 10 * k = 10 * (k + 1) - 9 := by intro k; omega
    by_cases hcond : ∀ k ≤ n, 1 + 10 * k < lines.length ∧
        heatNonempty (heatBlock lines (1 + 10 * k)) = true
    · rw [if_pos hcond, if_pos, hidx n]
      refine ⟨by omega, ?_⟩
      intro k hk
      have := hcond k hk
      rw [hidx k] at this
      exact this
    · rw [if_neg hcond, if_neg]
      intro hall
      apply hcond
      intro k hk
      have := hall.2 k hk
      rw [hidx k]
      exact this

theorem ldq_frame (s : SLState) (o : Obs) (lane : ℕ) :
    (laneDQStep s o lane).1.timerRunning = s.timerRunning ∧
    (laneDQStep s o lane).1.timerStartTime = s.timerStartTime ∧
    (laneDQStep s o lane).1.expectedTimesPerLane = s.expectedTimesPerLane ∧
    (laneDQStep s o lane).1.savedSentForHeat = s.savedSentForHeat ∧
    (laneDQStep s o lane).1.activeLanes = s.activeLanes ∧
    (laneDQStep s o lane).1.lastRaceTime = s.lastRaceTime ∧
    (laneDQStep s o lane).1.lastEvent = s.lastEvent ∧
    (laneDQStep s o lane).1.lastHeat = s.lastHeat ∧
    (laneDQStep s o lane).1.lastSwimmers = s.lastSwimmers ∧
    (laneDQStep s o lane).1.laneTimeCounts = s.laneTimeCounts := by
  simp only [laneDQStep]
  split_ifs <;> exact ⟨rfl, rfl, rfl, rfl, rfl, rfl, rfl, rfl, rfl, rfl⟩

theorem lts_frame (s : SLState) (o : Obs) (lane : ℕ) :
    (laneTimeStep s o lane).1.timerRunning = s.timerRunning ∧
    (laneTimeStep s o lane).1.timerStartTime = s.timerStartTime ∧
    (laneTimeStep s o lane).1.expectedTimesPerLane = s.expectedTimesPerLane ∧
    (laneTimeStep s o lane).1.savedSentForHeat = s.savedSentForHeat ∧
    (laneTimeStep s o lane).1.activeLanes = s.activeLanes ∧
    (laneTimeStep s o lane).1.lastRaceTime = s.lastRaceTime ∧
    (laneTimeStep s o lane).1.lastEvent = s.lastEvent ∧
    (laneTimeStep s o lane).1.lastHeat = s.lastHeat ∧
    (laneTimeStep s o lane).1.lastSwimmers = s.lastSwimmers ∧
    (laneTimeStep s o lane).1.dqSentForHeat = s.dqSentForHeat := by
  simp only [laneTimeStep]
  rcases laneTimeAccept s o lane with _ | ⟨tc, fm, po, sw⟩
  · exact ⟨rfl, rfl, rfl, rfl, rfl, rfl, rfl, rfl, rfl, rfl⟩
  · exact ⟨rfl, rfl, rfl, rfl, rfl, rfl, rfl, rfl, rfl, rfl⟩

theorem lfs_frame (s : SLState) (o : Obs) (lane : ℕ) :
    (laneFinishStep s o lane).1.timerRunning = s.timerRunning ∧
    (laneFinishStep s o lane).1.timerStartTime = s.timerStartTime ∧
    (laneFinishStep s o lane).1.expectedTimesPerLane = s.expectedTimesPerLane ∧
    (laneFinishStep s o lane).1.savedSentForHeat = s.savedSentForHeat ∧
    (laneFinishStep s o lane).1.activeLanes = s.activeLanes ∧
    (laneFinishStep s o lane).1.lastRaceTime = s.lastRaceTime ∧
    (laneFinishStep s o lane).1.lastEvent = s.lastEvent ∧
    (laneFinishStep s o lane).1.lastHeat = s.lastHeat ∧
    (laneFinishStep s o lane).1.lastSwimmers = s.lastSwimmers := by
  simp only [laneFinishStep]
  split_ifs
  · obtain ⟨h1, h2, h3, h4, h5, h6, h7, h8, h9, _⟩ := ldq_frame s o lane
    exact ⟨h1, h2, h3, h4, h5, h6, h7, h8, h9⟩
  · obtain ⟨h1, h2, h3, h4, h5, h6, h7, h8, h9, _⟩ := lts_frame s o lane
    exact ⟨h1, h2, h3, h4, h5, h6, h7, h8, h9⟩

theorem lts_shape (s : SLState) (o : Obs) (lane : ℕ) :
    (laneTimeStep s o lane).2 = [] ∨
    ∃ t p sw ty n lb, (laneTimeStep s o lane).2 = [Msg.finishTime lane t p sw ty n lb] := by
  simp only [laneTimeStep]
  rcases laneTimeAccept s o lane with _ | ⟨tc, fm, po, sw⟩
  · exact Or.inl rfl
  · exact Or.inr ⟨_, _, _, _, _, _, rfl⟩

theorem ldq_cases (s : SLState) (o : Obs) (lane : ℕ) :
    ((laneDQStep s o lane).1.dqSentForHeat = s.dqSentForHeat ∧
       (laneDQStep s o lane).2 = []) ∨
    (lane ∉ s.dqSentForHeat ∧
       (laneDQStep s o lane).1.dqSentForHeat = insert lane s.dqSentForHeat ∧
       (laneDQStep s o lane).2 = [Msg.disqualification lane]) := by
  simp only [laneDQStep]
  split_ifs with h1 h2
  · exact Or.inl ⟨rfl, rfl⟩
  · exact Or.inl ⟨rfl, rfl⟩
  · exact Or.inr ⟨h1, rfl, rfl⟩

theorem lfs_shape (s : SLState) (o : Obs) (lane : ℕ) :
    (laneFinishStep s o lane).2 = [] ∨
    (laneFinishStep s o lane).2 = [Msg.disqualification lane] ∨
    ∃ t p sw ty n lb, (laneFinishStep s o lane).2 = [Msg.finishTime lane t p sw ty n lb] := by
  simp only [laneFinishStep]
  split_ifs
  · rcases ldq_cases s o lane with ⟨_, h⟩ | ⟨_, _, h⟩
    · exact Or.inl h
    · exact Or.inr (Or.inl h)
  · rcases lts_shape s o lane with h | h
    · exact Or.inl h
    · exact Or.inr (Or.inr h)

theorem lfs_dq_cases (s : SLState) (o : Obs) (lane : ℕ) :
    ((laneFinishStep s o lane).1.dqSentForHeat = s.dqSentForHeat ∧
       ∀ j, Msg.disqualification j ∉ (laneFinishStep s o lane).2) ∨
    (lane ∉ s.dqSentForHeat ∧
       (laneFinishStep s o lane).1.dqSentForHeat = insert lane s.dqSentForHeat ∧
       (laneFinishStep s o lane).2 = [Msg.disqualification lane]) := by
  simp only [laneFinishStep]
  split_ifs
  · rcases ldq_cases s o lane with ⟨h1, h2⟩ | h
    · exact Or.inl ⟨h1, by simp [h2]⟩
    · exact Or.inr h
  · rcases lts_shape s o lane with h | ⟨t, p, sw, ty, n, lb, h⟩
    · exact Or.inl ⟨(lts_frame s o lane).2.2.2.2.2.2.2.2.2, by simp [h]⟩
    · exact Or.inl ⟨(lts_frame s o lane).2.2.2.2.2.2.2.2.2, by simp [h]⟩

theorem lfs_dq_emit (s : SLState) (o : Obs) (lane : ℕ)
    (hflag : dqFlagged o lane = true)
    (hnmem : lane ∉ s.dqSentForHeat)
    (hns : ∀ t : ℤ, s.timerRunning = true → s.timerStartTime = some t →
            DQ_STALE_TIMEOUT ≤ o.now - t) :
    (laneFinishStep s o lane).2 = [Msg.disqualification lane] ∧
    (laneFinishStep s o lane).1.dqSentForHeat = insert lane s.dqSentForHeat := by
  have hsup : (match s.timerRunning, s.timerStartTime with
      | true, some t => decide (o.now - t < DQ_STALE_TIMEOUT)
      | _, _ => false) = false := by
    rcases hr : s.timerRunning <;> rcases hst : s.timerStartTime with _ | t
    · rfl
    · rfl
    · rfl
    · simp only [decide_eq_false_iff_not, not_lt]
      exact hns t hr hst
  simp only [laneFinishStep, if_pos hflag, laneDQStep, hsup]
  rw [if_neg hnmem, if_neg (by simp)]
  exact ⟨rfl, rfl⟩

theorem lfs_dq_suppressed (s : SLState) (o : Obs) (lane : ℕ) (t : ℤ)
    (hr : s.timerRunning = true) (hst : s.timerStartTime = some t)
    (hlt : o.now - t < DQ_STALE_TIMEOUT) :
    ∀ j, Msg.disqualification j ∉ (laneFinishStep s o lane).2 := by
  intro j
  have hsup : (match s.timerRunning, s.timerStartTime with
      | true, some t => decide (o.now - t < DQ_STALE_TIMEOUT)
      | _, _ => false) = true := by
    rw [hr, hst]
    simpa using hlt
  simp only [laneFinishStep, laneDQStep, hsup]
  split_ifs <;>
    first
      | simp
      | (rcases lts_shape s o lane with h | ⟨t2, p, sw, ty, n, lb, h⟩ <;> simp [h])

theorem lfs_phi (s : SLState) (o : Obs) (lane j : ℕ) :
    countDQ j (laneFinishStep s o lane).2 + dqToken j (laneFinishStep s o lane).1 ≤
      dqToken j s := by
  rcases lfs_dq_cases s o lane with ⟨h1, h2⟩ | ⟨h1, h2, h3⟩
  · have hc : countDQ j (laneFinishStep s o lane).2 = 0 :=
      List.count_eq_zero.mpr (h2 j)
    simp [dqToken, hc, h1]
  · by_cases hj : j = lane
    · have hc : countDQ j (laneFinishStep s o lane).2 = 1 := by
        rw [countDQ, h3, hj]
        simp
      have ht1 : dqToken j (laneFinishStep s o lane).1 = 0 := by
        simp [dqToken, h2, hj]
      have ht2 : dqToken j s = 1 := by
        rw [hj]
        simp [dqToken, h1]
      omega
    · have hc : countDQ j (laneFinishStep s o lane).2 = 0 := by
        rw [countDQ, h3]
        exact List.count_eq_zero.mpr (by simp [hj])
      have ht : dqToken j (laneFinishStep s o lane).1 = dqToken j s := by
        simp [dqToken, h2, Finset.mem_insert, hj]
      omega

theorem lfs_noSaved (s : SLState) (o : Obs) (lane : ℕ) :
    Msg.saved ∉ (laneFinishStep s o lane).2 := by
  rcases lfs_shape s o lane with h | h | ⟨t, p, sw, ty, n, lb, h⟩ <;> simp [h]

theorem lanesLoop_frame (o : Obs) (lanes : List ℕ) : ∀ s : SLState,
    (lanesLoop s o lanes).1.timerRunning = s.timerRunning ∧
    (lanesLoop s o lanes).1.timerStartTime = s.timerStartTime ∧
    (lanesLoop s o lanes).1.expectedTimesPerLane = s.expectedTimesPerLane ∧
    (lanesLoop s o lanes).1.savedSentForHeat = s.savedSentForHeat ∧
    (lanesLoop s o lanes).1.activeLanes = s.activeLanes ∧
    (lanesLoop s o lanes).1.lastRaceTime = s.lastRaceTime ∧
    (lanesLoop s o lanes).1.lastEvent = s.lastEvent ∧
    (lanesLoop s o lanes).1.lastHeat = s.lastHeat ∧
    (lanesLoop s o lanes).1.lastSwimmers = s.lastSwimmers := by
  induction lanes with
  | nil => intro s; exact ⟨rfl, rfl, rfl, rfl, rfl, rfl, rfl, rfl, rfl⟩
  | cons lane rest ih =>
    intro s
    obtain ⟨a1, a2, a3, a4, a5, a6, a7, a8, a9⟩ := lfs_frame s o lane
    obtain ⟨b1, b2, b3, b4, b5, b6, b7, b8, b9⟩ := ih (laneFinishStep s o lane).1
    exact ⟨b1.trans a1, b2.trans a2, b3.trans a3, b4.trans a4, b5.trans a5,
           b6.trans a6, b7.trans a7, b8.trans a8, b9.trans a9⟩

theorem lanesLoop_phi (o : Obs) (lanes : List ℕ) (j : ℕ) : ∀ s : SLState,
    countDQ j (lanesLoop s o lanes).2 + dqToken j (lanesLoop s o lanes).1 ≤
      dqToken j s := by
  induction lanes with
  | nil => intro s; simp [lanesLoop, countDQ]
  | cons lane rest ih =>
    intro s
    have h1 := lfs_phi s o lane j
    have h2 := ih (laneFinishStep s o lane).1
    have hc : countDQ j (lanesLoop s o (lane :: rest)).2 =
        countDQ j (laneFinishStep s o lane).2 +
        countDQ j (lanesLoop (laneFinishStep s o lane).1 o rest).2 := by
      simp [lanesLoop, countDQ, List.count_append]
    have he : (lanesLoop s o (lane :: rest)).1 =
        (lanesLoop (laneFinishStep s o lane).1 o rest).1 := rfl
    rw [hc, he]
    omega

theorem lanesLoop_noSaved (o : Obs) (lanes : List ℕ) : ∀ s : SLState,
    Msg.saved ∉ (lanesLoop s o lanes).2 := by
  induction lanes with
  | nil => intro s; simp [lanesLoop]
  | cons lane rest ih =>
    intro s
    simp only [lanesLoop, List.mem_append]
    push_neg
    exact ⟨lfs_noSaved s o lane, ih (laneFinishStep s o lane).1⟩

theorem hft_frame (s : SLState) (o : Obs) :
    (handleFinishTimes s o).1.timerRunning = s.timerRunning ∧
    (handleFinishTimes s o).1.timerStartTime = s.timerStartTime ∧
    (handleFinishTimes s o).1.expectedTimesPerLane = s.expectedTimesPerLane ∧
    (handleFinishTimes s o).1.savedSentForHeat = s.savedSentForHeat ∧
    (handleFinishTimes s o).1.activeLanes = s.activeLanes ∧
    (handleFinishTimes s o).1.lastRaceTime = s.lastRaceTime ∧
    (handleFinishTimes s o).1.lastEvent = s.lastEvent ∧
    (handleFinishTimes s o).1.lastHeat = s.lastHeat ∧
    (handleFinishTimes s o).1.lastSwimmers = s.lastSwimmers := by
  simp only [handleFinishTimes]
  split_ifs
  · exact ⟨rfl, rfl, rfl, rfl, rfl, rfl, rfl, rfl, rfl⟩
  · exact lanesLoop_frame o [1, 2, 3, 4, 5, 6, 7, 8] s

theorem hft_phi (s : SLState) (o : Obs) (j : ℕ) :
    countDQ j (handleFinishTimes s o).2 + dqToken j (handleFinishTimes s o).1 ≤
      dqToken j s := by
  simp only [handleFinishTimes]
  split_ifs
  · simp [countDQ]
  · exact lanesLoop_phi o [1, 2, 3, 4, 5, 6, 7, 8] j s

theorem hft_noSaved (s : SLState) (o : Obs) :
    Msg.saved ∉ (handleFinishTimes s o).2 := by
  simp only [handleFinishTimes]
  split_ifs
  · simp
  · exact lanesLoop_noSaved o [1, 2, 3, 4, 5, 6, 7, 8] s

theorem htu_frame (s : SLState) (rt : String) (now : ℤ) :
    (handleTimeUpdate s rt now).1.expectedTimesPerLane = s.expectedTimesPerLane ∧
    (handleTimeUpdate s rt now).1.dqSentForHeat = s.dqSentForHeat ∧
    (handleTimeUpdate s rt now).1.laneTimeCounts = s.laneTimeCounts ∧
    (handleTimeUpdate s rt now).1.activeLanes = s.activeLanes ∧
    (handleTimeUpdate s rt now).1.lastSwimmers = s.lastSwimmers ∧
    (handleTimeUpdate s rt now).1.lastEvent = s.lastEvent ∧
    (handleTimeUpdate s rt now).1.lastHeat = s.lastHeat ∧
    (handleTimeUpdate s rt now).1.lastFinishTimes = s.lastFinishTimes := by
  simp only [handleTimeUpdate]
  repeat' split
  all_goals exact ⟨rfl, rfl, rfl, rfl, rfl, rfl, rfl, rfl⟩

theorem htu_noDQ (s : SLState) (rt : String) (now : ℤ) (j : ℕ) :
    Msg.disqualification j ∉ (handleTimeUpdate s rt now).2 := by
  simp only [handleTimeUpdate]
  repeat' split
  all_goals simp

theorem htu_psi (s : SLState) (rt : String) (now : ℤ) :
    countSaved (handleTimeUpdate s rt now).2 + savedToken (handleTimeUpdate s rt now).1 ≤
      savedToken s := by
  simp only [handleTimeUpdate, savedToken]
  repeat' split
  all_goals rcases hs : s.savedSentForHeat <;> simp_all [countSaved, isRaceDataComplete]

theorem htu_saved_mem (s : SLState) (rt : String) (now : ℤ)
    (h : Msg.saved ∈ (handleTimeUpdate s rt now).2) :
    isStopReading rt = true ∧ s.timerRunning = true ∧ s.savedSentForHeat = false ∧
    isRaceDataComplete s = true ∧
    (handleTimeUpdate s rt now).2 = [Msg.saved, Msg.timerSync false 0 now] ∧
    (handleTimeUpdate s rt now).1.timerRunning = false ∧
    (handleTimeUpdate s rt now).1.savedSentForHeat = true := by
  by_cases hstop : isStopReading rt = true
  · by_cases hrun : s.timerRunning = true
    · by_cases hsend : (!s.savedSentForHeat && isRaceDataComplete s) = true
      · have hmsgs : (handleTimeUpdate s rt now).2 =
            [Msg.saved, Msg.timerSync false 0 now] := by
          simp only [handleTimeUpdate, if_pos hstop, hrun, if_true, hsend]
          rfl
        have hstate1 : (handleTimeUpdate s rt now).1.timerRunning = false := by
          simp only [handleTimeUpdate, if_pos hstop, hrun, if_true]
        have hstate2 : (handleTimeUpdate s rt now).1.savedSentForHeat = true := by
          simp only [handleTimeUpdate, if_pos hstop, hrun, if_true, hsend]
          simp [Bool.and_eq_true] at hsend
          simp [hsend.2]
        rw [Bool.and_eq_true, Bool.not_eq_true'] at hsend
        exact ⟨hstop, hrun, hsend.1, hsend.2, hmsgs, hstate1, hstate2⟩
      · exfalso
        have hmsgs : (handleTimeUpdate s rt now).2 = [Msg.timerSync false 0 now] := by
          simp only [handleTimeUpdate, if_pos hstop, hrun, if_true, hsend]
          simp [hsend]
        rw [hmsgs] at h
        simp at h
    · exfalso
      have hb : s.timerRunning = false := by
        rw [Bool.not_eq_true] at hrun
        exact hrun
      have hmsgs : (handleTimeUpdate s rt now).2 = [] := by
        simp only [handleTimeUpdate, if_pos hstop, hb]
        rfl
      rw [hmsgs] at h
      simp at h
  · exfalso
    rw [Bool.not_eq_true] at hstop
    have hmsgs : ∀ m ∈ (handleTimeUpdate s rt now).2, m ≠ Msg.saved := by
      simp only [handleTimeUpdate, hstop, Bool.false_eq_true, if_false]
      rcases parseTimeToSeconds rt with _ | q
      · simp
      · simp only []
        split_ifs <;> simp
    exact hmsgs Msg.saved h rfl

theorem cla_frame (s : SLState) (o : Obs) :
    (checkLaneActivity s o).1.savedSentForHeat = s.savedSentForHeat ∧
    (checkLaneActivity s o).1.dqSentForHeat = s.dqSentForHeat ∧
    (checkLaneActivity s o).1.laneTimeCounts = s.laneTimeCounts ∧
    (checkLaneActivity s o).1.expectedTimesPerLane = s.expectedTimesPerLane ∧
    (checkLaneActivity s o).1.timerRunning = s.timerRunning ∧
    (checkLaneActivity s o).1.timerStartTime = s.timerStartTime ∧
    (checkLaneActivity s o).1.lastRaceTime = s.lastRaceTime ∧
    (checkLaneActivity s o).1.lastEvent = s.lastEvent ∧
    (checkLaneActivity s o).1.lastHeat = s.lastHeat ∧
    (checkLaneActivity s o).1.lastSwimmers = s.lastSwimmers ∧
    (checkLaneActivity s o).1.lastFinishTimes = s.lastFinishTimes := by
  simp only [checkLaneActivity]
  repeat' split
  all_goals exact ⟨rfl, rfl, rfl, rfl, rfl, rfl, rfl, rfl, rfl, rfl, rfl⟩

theorem cla_msgs (s : SLState) (o : Obs) :
    ∀ m ∈ (checkLaneActivity s o).2, ∃ ls n, m = Msg.activeLanesUpdate ls n := by
  simp only [checkLaneActivity]
  repeat' split
  all_goals simp

theorem cla_noSaved (s : SLState) (o : Obs) :
    Msg.saved ∉ (checkLaneActivity s o).2 := by
  intro h
  obtain ⟨ls, n, hm⟩ := cla_msgs s o Msg.saved h
  exact absurd hm (by simp)

theorem cla_noDQ (s : SLState) (o : Obs) (j : ℕ) :
    Msg.disqualification j ∉ (checkLaneActivity s o).2 := by
  intro h
  obtain ⟨ls, n, hm⟩ := cla_msgs s o (Msg.disqualification j) h
  exact absurd hm (by simp)

theorem dqToken_congr {j : ℕ} {s s' : SLState}
    (h : s'.dqSentForHeat = s.dqSentForHeat) : dqToken j s' = dqToken j s := by
  simp [dqToken, h]

theorem savedToken_congr {s s' : SLState}
    (h : s'.savedSentForHeat = s.savedSentForHeat) : savedToken s' = savedToken s := by
  simp [savedToken, h]

theorem countDQ_append (j : ℕ) (a b : List Msg) :
    countDQ j (a ++ b) = countDQ j a + countDQ j b := List.count_append _ _ _

theorem countSaved_append (a b : List Msg) :
    countSaved (a ++ b) = countSaved a + countSaved b := List.count_append _ _ _

theorem loopIter_eq (ctx : Ctx) (s : SLState) (o : Obs)
    (hE : o.event = s.lastEvent) (hH : o.heat = s.lastHeat) :
    loopIter ctx s o =
      (let r2 := if o.raceTime ≠ s.lastRaceTime
                 then handleTimeUpdate s o.raceTime o.now else (s, [])
       let r3 := handleFinishTimes r2.1 o
       let r4 := checkLaneActivity r3.1 o
       (r4.1, r2.2 ++ r3.2 ++ r4.2)) := by
  have hcond : ¬ (o.event ≠ s.lastEvent ∨ o.heat ≠ s.lastHeat) := by
    push_neg
    exact ⟨hE, hH⟩
  simp only [loopIter, if_neg hcond, List.nil_append]

theorem step2_noDQ (s : SLState) (o : Obs) (j : ℕ) :
    countDQ j (if o.raceTime ≠ s.lastRaceTime
               then handleTimeUpdate s o.raceTime o.now else (s, [])).2 = 0 ∧
    (if o.raceTime ≠ s.lastRaceTime
     then handleTimeUpdate s o.raceTime o.now else (s, [])).1.dqSentForHeat
      = s.dqSentForHeat := by
  split_ifs with h
  · exact ⟨List.count_eq_zero.mpr (htu_noDQ s o.raceTime o.now j), (htu_frame s o.raceTime o.now).2.1⟩
  · exact ⟨rfl, rfl⟩

theorem step2_psi (s : SLState) (o : Obs) :
    countSaved (if o.raceTime ≠ s.lastRaceTime
                then handleTimeUpdate s o.raceTime o.now else (s, [])).2 +
      savedToken (if o.raceTime ≠ s.lastRaceTime
                  then handleTimeUpdate s o.raceTime o.now else (s, [])).1 ≤
      savedToken s := by
  split_ifs with h
  · exact htu_psi s o.raceTime o.now
  · simp [countSaved]

theorem loopIter_phi (ctx : Ctx) (s : SLState) (o : Obs) (j : ℕ)
    (hE : o.event = s.lastEvent) (hH : o.heat = s.lastHeat) :
    countDQ j (loopIter ctx s o).2 + dqToken j (loopIter ctx s o).1 ≤ dqToken j s := by
  rw [loopIter_eq ctx s o hE hH]
  simp only []
  obtain ⟨h2c, h2d⟩ := step2_noDQ s o j
  set s2 := (if o.raceTime ≠ s.lastRaceTime
             then handleTimeUpdate s o.raceTime o.now else (s, [])).1 with hs2
  have h3 := hft_phi s2 o j
  have h4c : countDQ j (checkLaneActivity (handleFinishTimes s2 o).1 o).2 = 0 :=
    List.count_eq_zero.mpr (cla_noDQ _ o j)
  have h4d := dqToken_congr (j := j) (cla_frame (handleFinishTimes s2 o).1 o).2.1
  have hs2d : dqToken j s2 = dqToken j s := dqToken_congr h2d
  rw [countDQ_append, countDQ_append, h2c, h4c, h4d]
  omega

theorem loopIter_psi (ctx : Ctx) (s : SLState) (o : Obs)
    (hE : o.event = s.lastEvent) (hH : o.heat = s.lastHeat) :
    countSaved (loopIter ctx s o).2 + savedToken (loopIter ctx s o).1 ≤ savedToken s := by
  rw [loopIter_eq ctx s o hE hH]
  simp only []
  have h2 := step2_psi s o
  set s2 := (if o.raceTime ≠ s.lastRaceTime
             then handleTimeUpdate s o.raceTime o.now else (s, [])).1 with hs2
  have h3c : countSaved (handleFinishTimes s2 o).2 = 0 :=
    List.count_eq_zero.mpr (hft_noSaved s2 o)
  have h3d : savedToken (handleFinishTimes s2 o).1 = savedToken s2 :=
    savedToken_congr (hft_frame s2 o).2.2.2.1
  have h4c : countSaved (checkLaneActivity (handleFinishTimes s2 o).1 o).2 = 0 :=
    List.count_eq_zero.mpr (cla_noSaved _ o)
  have h4d : savedToken (checkLaneActivity (handleFinishTimes s2 o).1 o).1 =
      savedToken (handleFinishTimes s2 o).1 :=
    savedToken_congr (cla_frame (handleFinishTimes s2 o).1 o).1
  rw [countSaved_append, countSaved_append, h3c, h4c, h4d, h3d]
  omega

theorem loopIter_lastEH (ctx : Ctx) (s : SLState) (o : Obs)
    (hE : o.event = s.lastEvent) (hH : o.heat = s.lastHeat) :
    (loopIter ctx s o).1.lastEvent = s.lastEvent ∧
    (loopIter ctx s o).1.lastHeat = s.lastHeat := by
  rw [loopIter_eq ctx s o hE hH]
  simp only []
  set s2 := (if o.raceTime ≠ s.lastRaceTime
             then handleTimeUpdate s o.raceTime o.now else (s, [])).1 with hs2
  have h2 : s2.lastEvent = s.lastEvent ∧ s2.lastHeat = s.lastHeat := by
    rw [hs2]
    split_ifs with h
    · exact ⟨(htu_frame s o.raceTime o.now).2.2.2.2.2.1,
             (htu_frame s o.raceTime o.now).2.2.2.2.2.2.1⟩
    · exact ⟨rfl, rfl⟩
  have h3 : (handleFinishTimes s2 o).1.lastEvent = s2.lastEvent ∧
      (handleFinishTimes s2 o).1.lastHeat = s2.lastHeat :=
    ⟨(hft_frame s2 o).2.2.2.2.2.2.1, (hft_frame s2 o).2.2.2.2.2.2.2.1⟩
  have h4 : (checkLaneActivity (handleFinishTimes s2 o).1 o).1.lastEvent =
        (handleFinishTimes s2 o).1.lastEvent ∧
      (checkLaneActivity (handleFinishTimes s2 o).1 o).1.lastHeat =
        (handleFinishTimes s2 o).1.lastHeat :=
    ⟨(cla_frame _ o).2.2.2.2.2.2.2.1, (cla_frame _ o).2.2.2.2.2.2.2.2.1⟩
  exact ⟨(h4.1.trans h3.1).trans h2.1, (h4.2.trans h3.2).trans h2.2⟩

theorem run_phi (ctx : Ctx) (j : ℕ) (L : List Obs) : ∀ s : SLState,
    (∀ o ∈ L, o.event = s.lastEvent ∧ o.heat = s.lastHeat) →
    countDQ j (runMachine ctx s L).2 + dqToken j (runMachine ctx s L).1 ≤
      dqToken j s := by
  induction L with
  | nil => intro s _; simp [runMachine, countDQ]
  | cons o rest ih =>
    intro s hL
    have hE := (hL o (List.mem_cons_self o rest)).1
    have hH := (hL o (List.mem_cons_self o rest)).2
    have h1 := loopIter_phi ctx s o j hE hH
    obtain ⟨he, hh⟩ := loopIter_lastEH ctx s o hE hH
    have hrest : ∀ o' ∈ rest, o'.event = (loopIter ctx s o).1.lastEvent ∧
        o'.heat = (loopIter ctx s o).1.lastHeat := by
      intro o' ho'
      rw [he, hh]
      exact hL o' (List.mem_cons_of_mem o ho')
    have h2 := ih (loopIter ctx s o).1 hrest
    have hc : countDQ j (runMachine ctx s (o :: rest)).2 =
        countDQ j (loopIter ctx s o).2 +
        countDQ j (runMachine ctx (loopIter ctx s o).1 rest).2 := by
      simp [runMachine, countDQ, List.count_append]
    have he2 : (runMachine ctx s (o :: rest)).1 =
        (runMachine ctx (loopIter ctx s o).1 rest).1 := rfl
    rw [hc, he2]
    omega

theorem run_psi (ctx : Ctx) (L : List Obs) : ∀ s : SLState,
    (∀ o ∈ L, o.event = s.lastEvent ∧ o.heat = s.lastHeat) →
    countSaved (runMachine ctx s L).2 + savedToken (runMachine ctx s L).1 ≤
      savedToken s := by
  induction L with
  | nil => intro s _; simp [runMachine, countSaved]
  | cons o rest ih =>
    intro s hL
    have hE := (hL o (List.mem_cons_self o rest)).1
    have hH := (hL o (List.mem_cons_self o rest)).2
    have h1 := loopIter_psi ctx s o hE hH
    obtain ⟨he, hh⟩ := loopIter_lastEH ctx s o hE hH
    have hrest : ∀ o' ∈ rest, o'.event = (loopIter ctx s o).1.lastEvent ∧
        o'.heat = (loopIter ctx s o).1.lastHeat := by
      intro o' ho'
      rw [he, hh]
      exact hL o' (List.mem_cons_of_mem o ho')
    have h2 := ih (loopIter ctx s o).1 hrest
    have hc : countSaved (runMachine ctx s (o :: rest)).2 =
        countSaved (loopIter ctx s o).2 +
        countSaved (runMachine ctx (loopIter ctx s o).1 rest).2 := by
      simp [runMachine, countSaved, List.count_append]
    have he2 : (runMachine ctx s (o :: rest)).1 =
        (runMachine ctx (loopIter ctx s o).1 rest).1 := rfl
    rw [hc, he2]
    omega

theorem isRaceDataComplete_spec {s : SLState} (h : isRaceDataComplete s = true) :
    ∀ lane ∈ s.activeLanes,
      s.expectedTimesPerLane ≤ dictGet s.laneTimeCounts (toString lane) 0 := by
  simp only [isRaceDataComplete] at h
  split_ifs at h with hc
  intro lane hmem
  rw [decide_eq_true_iff] at h
  exact not_lt.mp (h lane hmem)

theorem lanesLoop_suppressed (o : Obs) (t : ℤ) (j : ℕ) (lanes : List ℕ) :
    ∀ s : SLState, s.timerRunning = true → s.timerStartTime = some t →
      o.now - t < DQ_STALE_TIMEOUT →
      Msg.disqualification j ∉ (lanesLoop s o lanes).2 := by
  induction lanes with
  | nil => intro s _ _ _; simp [lanesLoop]
  | cons lane rest ih =>
    intro s hr hst hlt
    simp only [lanesLoop, List.mem_append]
    push_neg
    refine ⟨lfs_dq_suppressed s o lane t hr hst hlt j, ?_⟩
    have hfr := lfs_frame s o lane
    exact ih (laneFinishStep s o lane).1 (hfr.1.trans hr) (hfr.2.1.trans hst) hlt

theorem lfs_dqSent_growth (s : SLState) (o : Obs) (k : ℕ) :
    (laneFinishStep s o k).1.dqSentForHeat = s.dqSentForHeat ∨
    (laneFinishStep s o k).1.dqSentForHeat = insert k s.dqSentForHeat := by
  rcases lfs_dq_cases s o k with ⟨h, _⟩ | ⟨_, h, _⟩
  · exact Or.inl h
  · exact Or.inr h

theorem lanesLoop_emit (o : Obs) (t : ℤ) (lane : ℕ) (lanes : List ℕ) :
    ∀ s : SLState, lane ∈ lanes →
      s.timerRunning = true → s.timerStartTime = some t →
      DQ_STALE_TIMEOUT ≤ o.now - t →
      dqFlagged o lane = true → lane ∉ s.dqSentForHeat →
      Msg.disqualification lane ∈ (lanesLoop s o lanes).2 := by
  induction lanes with
  | nil => intro s hmem; exact absurd hmem (by simp)
  | cons k rest ih =>
    intro s hmem hr hst hge hflag hnmem
    simp only [lanesLoop, List.mem_append]
    by_cases hk : k = lane
    · subst hk
      left
      have hns : ∀ t' : ℤ, s.timerRunning = true → s.timerStartTime = some t' →
          DQ_STALE_TIMEOUT ≤ o.now - t' := by
        intro t' _ hst'
        rw [hst] at hst'
        cases hst'
        exact hge
      rw [(lfs_dq_emit s o k hflag hnmem hns).1]
      simp
    · right
      have hmem' : lane ∈ rest := by
        rcases List.mem_cons.mp hmem with h | h
        · exact absurd h.symm hk
        · exact h
      have hfr := lfs_frame s o k
      have hnmem' : lane ∉ (laneFinishStep s o k).1.dqSentForHeat := by
        rcases lfs_dqSent_growth s o k with h | h
        · rw [h]; exact hnmem
        · rw [h]
          simp only [Finset.mem_insert]
          push_neg
          exact ⟨fun hc => hk (hc.symm), hnmem⟩
      exact ih (laneFinishStep s o k).1 hmem' (hfr.1.trans hr) (hfr.2.1.trans hst)
        hge hflag hnmem'

theorem hec_expected (ctx : Ctx) (s : SLState) (e ht : String)
    (hne : e ≠ s.lastEvent) :
    (handleEventChange ctx s e ht).1.expectedTimesPerLane =
      match extractDistance (ctx.eventNameOf e) with
      | some d => if d ≠ 0 then d / 50 else 1
      | none => 1 := by
  simp only [handleEventChange, if_pos hne]

/-- C2 counterexample: on an event change to an event whose cleaned name
contains the distance token "25M", the code sets the expected times per lane
to 25 // 50 = 0, not max(25 // 50, 1) = 1 as the claim states (the claim
says a 25M event yields 1): there is no max(..., 1) clamp in
`_handle_event_change`. -/
theorem c2_counterexample :
    extractDistance "OPEN 25M FREE" = some 25 ∧
    (handleEventChange c2Ctx initSLState "7" "1").1.expectedTimesPerLane = 0 ∧
    max (25 / 50) 1 = 1 ∧ (0 : ℕ) ≠ max (25 / 50) 1 := by decide

/-- C2 (amended): on every main-loop iteration observing an event change
(decoded event code differs from the stored one), the machine sets the
expected number of times per lane from the first <digits>M token of the
cleaned event name: distance // 50 by floor division when such a token
exists with a positive value (so a 100M event yields 2, but a 25M event
yields 0 — there is no max(..., 1) clamp), and 1 when no token is found or
its value is 0. -/
theorem c2_expected_times (ctx : Ctx) (s : SLState) (o : Obs)
    (hne : o.event ≠ s.lastEvent) :
    (loopIter ctx s o).1.expectedTimesPerLane =
      match extractDistance (ctx.eventNameOf o.event) with
      | some d => if d ≠ 0 then d / 50 else 1
      | none => 1 := by
  have hcond : (o.event ≠ s.lastEvent ∨ o.heat ≠ s.lastHeat) := Or.inl hne
  simp only [loopIter, if_pos hcond]
  set s1 := (handleEventChange ctx s o.event o.heat).1 with hs1
  set s2 := (if o.raceTime ≠ s1.lastRaceTime
             then handleTimeUpdate s1 o.raceTime o.now else (s1, [])).1 with hs2
  have h2 : s2.expectedTimesPerLane = s1.expectedTimesPerLane := by
    rw [hs2]
    split_ifs with h
    · exact (htu_frame s1 o.raceTime o.now).1
    · rfl
  have h3 := (hft_frame s2 o).2.2.1
  have h4 := (cla_frame (handleFinishTimes s2 o).1 o).2.2.2.1
  rw [h4, h3, h2, hs1, hec_expected ctx s o.event o.heat hne]

/-- C2 witness: a concrete event change to a 100M event yields 2 expected
times per lane. -/
theorem c2_expected_times_witness :
    ("5" : String) ≠ initSLState.lastEvent ∧
    (loopIter plainCtx initSLState
        ⟨"5", "1", "", List.replicate 8 ("", ""), List.replicate 8 false, 0⟩).1.expectedTimesPerLane =
      (match extractDistance (plainCtx.eventNameOf "5") with
       | some d => if d ≠ 0 then d / 50 else 1
       | none => 1) ∧
    (match extractDistance (plainCtx.eventNameOf "5") with
     | some d => if d ≠ 0 then d / 50 else 1
     | none => 1) = 2 :=
  ⟨by decide,
   c2_expected_times plainCtx initSLState
     ⟨"5", "1", "", List.replicate 8 ("", ""), List.replicate 8 false, 0⟩ (by decide),
   by decide⟩

/-- C4: within one heat of a run of the polled machine (no event or heat
change — the only transitions that reset the once-per-heat flag), the Saved
status message is emitted at most once; and any iteration that emits Saved
does so only on a running→stopped transition of the clock reading, only when
Saved had not yet been sent this heat, only when every currently-active
lane's received-time count has reached the expected times per lane, and the
Saved message is queued immediately before that stop's
TimerSync{running := false} message. -/
theorem c4_saved_once_per_heat (ctx : Ctx) (s : SLState) (L : List Obs)
    (hL : ∀ o ∈ L, o.event = s.lastEvent ∧ o.heat = s.lastHeat) :
    countSaved (runMachine ctx s L).2 ≤ 1 ∧
    ∀ (s' : SLState) (o : Obs), o.event = s'.lastEvent → o.heat = s'.lastHeat →
      Msg.saved ∈ (loopIter ctx s' o).2 →
      s'.timerRunning = true ∧ (loopIter ctx s' o).1.timerRunning = false ∧
      s'.savedSentForHeat = false ∧ isStopReading o.raceTime = true ∧
      (∀ lane ∈ s'.activeLanes,
        s'.expectedTimesPerLane ≤ dictGet s'.laneTimeCounts (toString lane) 0) ∧
      ∃ tail, (loopIter ctx s' o).2 = Msg.saved :: Msg.timerSync false 0 o.now :: tail := by
  constructor
  · have h := run_psi ctx L s hL
    have hb : savedToken s ≤ 1 := by
      unfold savedToken
      split_ifs <;> omega
    omega
  · intro s' o hE hH hmem
    rw [loopIter_eq ctx s' o hE hH] at hmem ⊢
    simp only [] at hmem ⊢
    set r2 := (if o.raceTime ≠ s'.lastRaceTime
               then handleTimeUpdate s' o.raceTime o.now else (s', [])) with hr2
    have hmem2 : Msg.saved ∈ r2.2 := by
      rcases List.mem_append.mp hmem with h | h
      · rcases List.mem_append.mp h with h' | h'
        · exact h'
        · exact absurd h' (hft_noSaved r2.1 o)
      · exact absurd h (cla_noSaved _ o)
    have hrt : o.raceTime ≠ s'.lastRaceTime := by
      intro hc
      rw [hr2, if_neg (by simpa using hc)] at hmem2
      exact absurd hmem2 (by simp)
    have hr2eq : r2 = handleTimeUpdate s' o.raceTime o.now := by
      rw [hr2, if_pos hrt]
    rw [hr2eq] at hmem2
    obtain ⟨c1, c2, c3, c4, c5, c6, c7⟩ := htu_saved_mem s' o.raceTime o.now hmem2
    have hm3 : handleFinishTimes r2.1 o = (r2.1, []) := by
      rw [hr2eq]
      simp only [handleFinishTimes, c6]
      rfl
    refine ⟨c2, ?_, c3, c1, isRaceDataComplete_spec c4, ?_⟩
    · have ha := (cla_frame (handleFinishTimes r2.1 o).1 o).2.2.2.2.1
      have hb := (hft_frame r2.1 o).1
      rw [ha, hb, hr2eq, c6]
    · refine ⟨(checkLaneActivity (handleFinishTimes r2.1 o).1 o).2, ?_⟩
      rw [hm3, hr2eq, c5]
      simp

/-- C4 witness: on a concrete one-iteration run the machine emits Saved
exactly once, and the bound from the theorem applies. -/
theorem c4_saved_once_per_heat_witness :
    (∀ o ∈ [c4WitObs], o.event = c4WitState.lastEvent ∧ o.heat = c4WitState.lastHeat) ∧
    countSaved (runMachine plainCtx c4WitState [c4WitObs]).2 ≤ 1 ∧
    countSaved (runMachine plainCtx c4WitState [c4WitObs]).2 = 1 :=
  ⟨by decide,
   (c4_saved_once_per_heat plainCtx c4WitState [c4WitObs] (by decide)).1,
   by decide⟩

/-- C5: within one heat of a run of the polled machine (no event or heat
change — the only transitions that reset the DQ sent-set): (i) at most one
Disqualification message is emitted per lane over the whole run; (ii) a
finish-times poll strictly within 5 seconds of the recorded clock start
emits no Disqualification at all; (iii) a poll at least 5 seconds after
clock start, while the clock is running, emits the lane's Disqualification
whenever that lane's place cell is non-empty and non-numeric and its DQ has
not already been sent this heat. -/
theorem c5_dq_once_per_heat (ctx : Ctx) (s : SLState) (L : List Obs)
    (hL : ∀ o ∈ L, o.event = s.lastEvent ∧ o.heat = s.lastHeat) :
    (∀ j, countDQ j (runMachine ctx s L).2 ≤ 1) ∧
    (∀ (s' : SLState) (o : Obs) (t : ℤ), s'.timerStartTime = some t →
      o.now - t < DQ_STALE_TIMEOUT →
      ∀ j, Msg.disqualification j ∉ (handleFinishTimes s' o).2) ∧
    (∀ (s' : SLState) (o : Obs) (t : ℤ) (lane : ℕ),
      1 ≤ lane → lane ≤ 8 →
      s'.timerRunning = true → s'.timerStartTime = some t →
      DQ_STALE_TIMEOUT ≤ o.now - t →
      dqFlagged o lane = true → lane ∉ s'.dqSentForHeat →
      Msg.disqualification lane ∈ (handleFinishTimes s' o).2) := by
  refine ⟨?_, ?_, ?_⟩
  · intro j
    have h := run_phi ctx j L s hL
    have hb : dqToken j s ≤ 1 := by
      unfold dqToken
      split_ifs <;> omega
    omega
  · intro s' o t hst hlt j
    simp only [handleFinishTimes]
    split_ifs with hr
    · simp
    · rw [Bool.not_eq_false] at hr
      exact lanesLoop_suppressed o t j [1, 2, 3, 4, 5, 6, 7, 8] s' hr hst hlt
  · intro s' o t lane h1 h8 hr hst hge hflag hnmem
    simp only [handleFinishTimes]
    rw [if_neg (by simp [hr])]
    have hmem : lane ∈ [1, 2, 3, 4, 5, 6, 7, 8] := by
      interval_cases lane <;> simp
    exact lanesLoop_emit o t lane [1, 2, 3, 4, 5, 6, 7, 8] s' hmem hr hst hge hflag hnmem

/-- C5 witness: ten seconds after clock start, the persisting non-numeric
place flag on lane 3 yields its Disqualification message. -/
theorem c5_dq_once_per_heat_witness :
    ((1 : ℕ) ≤ 3 ∧ (3 : ℕ) ≤ 8 ∧ c5WitState.timerRunning = true ∧
     c5WitState.timerStartTime = some 0 ∧
     DQ_STALE_TIMEOUT ≤ c5WitObs.now - 0 ∧ dqFlagged c5WitObs 3 = true ∧
     3 ∉ c5WitState.dqSentForHeat) ∧
    Msg.disqualification 3 ∈ (handleFinishTimes c5WitState c5WitObs).2 :=
  ⟨by decide,
   (c5_dq_once_per_heat plainCtx initSLState [] (by simp)).2.2
     c5WitState c5WitObs 0 3 (by decide) (by decide) (by decide) (by decide)
     (by decide) (by decide) (by decide)⟩

theorem processComPackets_append (s : ComState) (xs : List ComPacket) (p : ComPacket) :
    processComPackets s (xs ++ [p]) = processComPacket (processComPackets s xs) p := by
  induction xs generalizing s with
  | nil => rfl
  | cons x rest ih => exact ih (processComPacket s x)

theorem lookup_cons_self {α β : Type} [BEq α] [LawfulBEq α] (a : α) (b : β)
    (t : List (α × β)) : ((a, b) :: t).lookup a = some b := by
  simp [List.lookup_cons]

theorem lookup_cons_ne {α β : Type} [BEq α] [LawfulBEq α] {a k : α} (b : β)
    (t : List (α × β)) (h : k ≠ a) : ((a, b) :: t).lookup k = t.lookup k := by
  simp [List.lookup_cons, beq_false_of_ne h]

theorem partsLookup_eq_none {l : List (ℕ × List ℕ)} {k : ℕ} :
    l.lookup k = none ↔ k ∉ l.map Prod.fst := by
  induction l with
  | nil => simp
  | cons a t ih =>
    rcases a with ⟨ka, va⟩
    by_cases hk : k = ka
    · subst hk
      rw [lookup_cons_self]
      simp
    · rw [lookup_cons_ne _ _ hk, ih]
      simp only [List.map_cons, List.mem_cons]
      constructor
      · intro h hc
        rcases hc with hc | hc
        · exact hk hc
        · exact h hc
      · intro h hc
        exact h (Or.inr hc)

theorem partsLookup_eq_some {l : List (ℕ × List ℕ)}
    (hnd : (l.map Prod.fst).Nodup) {k : ℕ} {v : List ℕ} :
    l.lookup k = some v ↔ (k, v) ∈ l := by
  induction l with
  | nil => simp
  | cons a t ih =>
    rcases a with ⟨ka, va⟩
    simp only [List.map_cons, List.nodup_cons] at hnd
    by_cases hk : k = ka
    · subst hk
      rw [lookup_cons_self]
      simp only [List.mem_cons, Option.some_inj]
      constructor
      · intro h
        exact Or.inl (by rw [h])
      · intro h
        rcases h with h | h
        · cases h
          rfl
        · exact absurd (List.mem_map_of_mem Prod.fst h) hnd.1
    · rw [lookup_cons_ne _ _ hk, ih hnd.2]
      simp only [List.mem_cons]
      constructor
      · exact fun h => Or.inr h
      · intro h
        rcases h with h | h
        · cases h
          exact absurd rfl hk
        · exact h

theorem partsLookup_perm {l₁ l₂ : List (ℕ × List ℕ)} (hp : l₁.Perm l₂)
    (hnd : (l₂.map Prod.fst).Nodup) (k : ℕ) :
    l₁.lookup k = l₂.lookup k := by
  have hnd₁ : (l₁.map Prod.fst).Nodup := ((hp.map Prod.fst).nodup_iff).mpr hnd
  rcases h2 : l₂.lookup k with _ | v
  · rw [partsLookup_eq_none] at h2 ⊢
    intro hc
    exact h2 ((hp.map Prod.fst).mem_iff.mp hc)
  · rw [partsLookup_eq_some hnd] at h2
    rw [partsLookup_eq_some hnd₁]
    exact hp.mem_iff.mpr h2

theorem partsSet_append {l : List (ℕ × List ℕ)} {k : ℕ} {v : List ℕ}
    (h : k ∉ l.map Prod.fst) : partsSet l k v = l ++ [(k, v)] := by
  have hl : l.lookup k = none := partsLookup_eq_none.mpr h
  simp [partsSet, hl]

theorem insertAll_of_disjoint :
    ∀ (cs ps : List (ℕ × List ℕ)), (cs.map Prod.fst).Nodup →
      (∀ k ∈ cs.map Prod.fst, k ∉ ps.map Prod.fst) →
      insertAll ps cs = ps ++ cs := by
  intro cs
  induction cs with
  | nil => intro ps _ _; simp [insertAll]
  | cons c rest ih =>
    intro ps hnd hdisj
    rcases c with ⟨k, v⟩
    simp only [List.map_cons, List.nodup_cons] at hnd
    have hk : k ∉ ps.map Prod.fst := hdisj k (by simp)
    have hstep : insertAll ps ((k, v) :: rest) = insertAll (ps ++ [(k, v)]) rest := by
      simp [insertAll, partsSet_append hk]
    rw [hstep, ih (ps ++ [(k, v)]) hnd.2]
    · simp
    · intro k' hk' hc
      simp only [List.map_append, List.mem_append] at hc
      rcases hc with hc | hc
      · exact hdisj k' (by simp [hk']) hc
      · simp only [List.map_cons, List.map_nil, List.mem_cons] at hc
        rcases hc with hc | hc
        · rw [hc] at hk'
          exact hnd.1 hk'
        · exact absurd hc (by simp)

theorem bufLookup_append_self {d : List (String × ComBuffer)} {k : String}
    {b : ComBuffer} (h : d.lookup k = none) : (d ++ [(k, b)]).lookup k = some b := by
  induction d with
  | nil => exact lookup_cons_self k b []
  | cons a t ih =>
    rcases a with ⟨ka, va⟩
    by_cases hk : k = ka
    · subst hk
      rw [lookup_cons_self] at h
      exact absurd h (by simp)
    · rw [lookup_cons_ne _ _ hk] at h
      rw [List.cons_append, lookup_cons_ne _ _ hk]
      exact ih h

theorem bufLookup_append_ne {d : List (String × ComBuffer)} {k m : String}
    {b : ComBuffer} (h : m ≠ k) : (d ++ [(k, b)]).lookup m = d.lookup m := by
  induction d with
  | nil =>
    simp only [List.nil_append, List.lookup_nil]
    rw [lookup_cons_ne _ _ h]
    rfl
  | cons a t ih =>
    rcases a with ⟨ka, va⟩
    by_cases hm : m = ka
    · subst hm
      rw [List.cons_append, lookup_cons_self, lookup_cons_self]
    · rw [List.cons_append, lookup_cons_ne _ _ hm, lookup_cons_ne _ _ hm]
      exact ih

theorem lookup_mapSet_self {d : List (String × ComBuffer)} {k : String}
    {v : ComBuffer} (h : (d.lookup k).isSome) :
    (d.map (fun p => if p.1 = k then (k, v) else p)).lookup k = some v := by
  induction d with
  | nil => simp at h
  | cons a t ih =>
    rcases a with ⟨ka, va⟩
    by_cases hk : ka = k
    · have h1 : ((ka, va) : String × ComBuffer).1 = k := hk
      rw [List.map_cons, if_pos h1, lookup_cons_self]
    · have hk' : k ≠ ka := fun hc => hk hc.symm
      rw [lookup_cons_ne _ _ hk'] at h
      simp only [List.map_cons, if_neg hk]
      rw [lookup_cons_ne _ _ hk']
      exact ih h

theorem lookup_mapSet_ne {d : List (String × ComBuffer)} {k m : String}
    {v : ComBuffer} (h : m ≠ k) :
    (d.map (fun p => if p.1 = k then (k, v) else p)).lookup m = d.lookup m := by
  induction d with
  | nil => simp
  | cons a t ih =>
    rcases a with ⟨ka, va⟩
    by_cases hka : ka = k
    · have h1 : ((ka, va) : String × ComBuffer).1 = k := hka
      rw [List.map_cons, if_pos h1, lookup_cons_ne _ _ h,
        lookup_cons_ne _ _ (fun hc => h (hc.trans hka))]
      exact ih
    · simp only [List.map_cons, if_neg hka]
      by_cases hm : m = ka
      · subst hm
        rw [lookup_cons_self, lookup_cons_self]
      · rw [lookup_cons_ne _ _ hm, lookup_cons_ne _ _ hm]
        exact ih

theorem buffersSet_lookup_self (d : List (String × ComBuffer)) (k : String)
    (v : ComBuffer) : (buffersSet d k v).lookup k = some v := by
  simp only [buffersSet]
  split_ifs with h
  · exact lookup_mapSet_self h
  · rw [Option.not_isSome_iff_eq_none] at h
    exact bufLookup_append_self h

theorem buffersSet_lookup_ne (d : List (String × ComBuffer)) (k m : String)
    (v : ComBuffer) (h : m ≠ k) : (buffersSet d k v).lookup m = d.lookup m := by
  simp only [buffersSet]
  split_ifs with hp
  · exact lookup_mapSet_ne h
  · exact bufLookup_append_ne h

theorem filter_lookup_self (d : List (String × ComBuffer)) (k : String) :
    (d.filter (fun p => p.1 ≠ k)).lookup k = none := by
  induction d with
  | nil => simp
  | cons a t ih =>
    rcases a with ⟨ka, va⟩
    rw [List.filter_cons]
    by_cases hka : ka = k
    · rw [if_neg (by simp [hka])]
      exact ih
    · rw [if_pos (by simp [hka])]
      rw [lookup_cons_ne _ _ (fun hc : k = ka => hka hc.symm)]
      exact ih

theorem filter_lookup_ne (d : List (String × ComBuffer)) (k m : String)
    (h : m ≠ k) : (d.filter (fun p => p.1 ≠ k)).lookup m = d.lookup m := by
  induction d with
  | nil => simp
  | cons a t ih =>
    rcases a with ⟨ka, va⟩
    rw [List.filter_cons]
    by_cases hka : ka = k
    · rw [if_neg (by simp [hka])]
      rw [ih]
      rw [lookup_cons_ne _ _ (show m ≠ ka by rw [hka]; exact h)]
    · rw [if_pos (by simp [hka])]
      by_cases hm : m = ka
      · subst hm
        rw [lookup_cons_self, lookup_cons_self]
      · rw [lookup_cons_ne _ _ hm, lookup_cons_ne _ _ hm]
        exact ih

theorem chunk_step (s : ComState) (n : String) (hn : n ≠ "") (c : ℕ × List ℕ)
    (hc : c.2 ≠ []) (ps : List (ℕ × List ℕ))
    (hbuf : (s.buffers.lookup n = none ∧ ps = []) ∨
            ∃ sz, s.buffers.lookup n = some ⟨ps, false, sz⟩) :
    (∃ sz, (processComPacket s (chunkPacket n c)).buffers.lookup n =
        some ⟨partsSet ps c.1 c.2, false, sz⟩) ∧
    (processComPacket s (chunkPacket n c)).written = s.written ∧
    ∀ m, m ≠ n → (processComPacket s (chunkPacket n c)).buffers.lookup m
        = s.buffers.lookup m := by
  rcases hbuf with ⟨hnone, hps⟩ | ⟨sz, hsome⟩
  · have key : processComPacket s (chunkPacket n c) =
        { buffers := buffersSet (s.buffers ++ [(n, ⟨[], false, c.2.length⟩)]) n
            ⟨partsSet [] c.1 c.2, false, c.2.length⟩
          written := s.written } := by
      simp only [processComPacket, chunkPacket]
      rw [if_neg hn]
      simp only [hnone, Option.isSome_none, Bool.false_eq_true, if_false,
        bufLookup_append_self hnone, Option.getD_some]
      simp [hc]
    rw [key, hps]
    refine ⟨⟨c.2.length, buffersSet_lookup_self _ n _⟩, rfl, ?_⟩
    intro m hm
    rw [buffersSet_lookup_ne _ n m _ hm, bufLookup_append_ne hm]
  · have key : processComPacket s (chunkPacket n c) =
        { buffers := buffersSet s.buffers n ⟨partsSet ps c.1 c.2, false, sz⟩
          written := s.written } := by
      simp only [processComPacket, chunkPacket]
      rw [if_neg hn]
      simp only [hsome, Option.isSome_some, if_true, Option.getD_some]
      simp [hc]
    rw [key]
    refine ⟨⟨sz, buffersSet_lookup_self _ n _⟩, rfl, ?_⟩
    intro m hm
    rw [buffersSet_lookup_ne _ n m _ hm]

theorem chunks_phase (n : String) (hn : n ≠ "") :
    ∀ (cs : List (ℕ × List ℕ)) (s : ComState) (ps : List (ℕ × List ℕ)),
      (∀ c ∈ cs, c.2 ≠ []) →
      ((s.buffers.lookup n = none ∧ ps = []) ∨
       ∃ sz, s.buffers.lookup n = some ⟨ps, false, sz⟩) →
      ((insertAll ps cs = [] ∧
          (processComPackets s (cs.map (chunkPacket n))).buffers.lookup n = none) ∨
       ∃ sz, (processComPackets s (cs.map (chunkPacket n))).buffers.lookup n =
          some ⟨insertAll ps cs, false, sz⟩) ∧
      (processComPackets s (cs.map (chunkPacket n))).written = s.written ∧
      ∀ m, m ≠ n → (processComPackets s (cs.map (chunkPacket n))).buffers.lookup m
          = s.buffers.lookup m := by
  intro cs
  induction cs with
  | nil =>
    intro s ps _ hbuf
    refine ⟨?_, rfl, fun m _ => rfl⟩
    rcases hbuf with ⟨hnone, hps⟩ | ⟨sz, hsome⟩
    · exact Or.inl ⟨by simp [insertAll, hps], hnone⟩
    · exact Or.inr ⟨sz, by simpa [insertAll] using hsome⟩
  | cons c rest ih =>
    intro s ps hcont hbuf
    have hc : c.2 ≠ [] := hcont c (by simp)
    obtain ⟨⟨sz1, h1⟩, h2, h3⟩ := chunk_step s n hn c hc ps hbuf
    have hbuf' : ((processComPacket s (chunkPacket n c)).buffers.lookup n = none ∧
          partsSet ps c.1 c.2 = []) ∨
        ∃ sz, (processComPacket s (chunkPacket n c)).buffers.lookup n =
          some ⟨partsSet ps c.1 c.2, false, sz⟩ := Or.inr ⟨sz1, h1⟩
    obtain ⟨ha, hb, hcrest⟩ := ih (processComPacket s (chunkPacket n c))
      (partsSet ps c.1 c.2) (fun c' hc' => hcont c' (by simp [hc'])) hbuf'
    have hstep : insertAll ps (c :: rest) = insertAll (partsSet ps c.1 c.2) rest := by
      simp [insertAll]
    refine ⟨?_, ?_, ?_⟩
    · rw [show (c :: rest).map (chunkPacket n) =
          chunkPacket n c :: rest.map (chunkPacket n) from rfl]
      rw [show processComPackets s (chunkPacket n c :: rest.map (chunkPacket n)) =
          processComPackets (processComPacket s (chunkPacket n c))
            (rest.map (chunkPacket n)) from rfl]
      rw [hstep]
      exact ha
    · rw [show processComPackets s ((c :: rest).map (chunkPacket n)) =
          processComPackets (processComPacket s (chunkPacket n c))
            (rest.map (chunkPacket n)) from rfl]
      rw [hb, h2]
    · intro m hm
      rw [show processComPackets s ((c :: rest).map (chunkPacket n)) =
          processComPackets (processComPacket s (chunkPacket n c))
            (rest.map (chunkPacket n)) from rfl]
      rw [hcrest m hm, h3 m hm]

theorem final_step (s : ComState) (n : String) (hn : n ≠ "")
    (ps : List (ℕ × List ℕ)) (sz : ℕ)
    (hbuf : s.buffers.lookup n = some ⟨ps, false, sz⟩) (hne : ps ≠ []) :
    (processComPacket s (finalPacket n)).written
        = s.written ++ [(n, assembled ps)] ∧
    (processComPacket s (finalPacket n)).buffers.lookup n = none ∧
    ∀ m, m ≠ n → (processComPacket s (finalPacket n)).buffers.lookup m
        = s.buffers.lookup m := by
  have key : processComPacket s (finalPacket n) =
      { buffers := (buffersSet s.buffers n ⟨ps, true, sz⟩).filter (fun p => p.1 ≠ n)
        written := s.written ++ [(n, assembled ps)] } := by
    simp only [processComPacket, finalPacket]
    rw [if_neg hn]
    simp only [hbuf, Option.isSome_some, if_true, Option.getD_some]
    simp [saveCompleteFile, hne]
  rw [key]
  refine ⟨rfl, filter_lookup_self _ n, ?_⟩
  intro m hm
  rw [filter_lookup_ne _ n m hm, buffersSet_lookup_ne _ n m _ hm]

theorem assembled_eq (chunks ordered : List (ℕ × List ℕ)) (hperm : chunks.Perm ordered)
    (hsorted : ordered.Pairwise (fun a b => a.1 < b.1)) :
    assembled chunks = (ordered.map Prod.snd).flatten := by
  have hndOrd : (ordered.map Prod.fst).Nodup := by
    have : (ordered.map Prod.fst).Pairwise (· < ·) :=
      List.pairwise_map.mpr hsorted
    exact this.imp Nat.ne_of_lt
  have hsortedOrd : (ordered.map Prod.fst).Sorted (· ≤ ·) := by
    have : (ordered.map Prod.fst).Pairwise (· < ·) :=
      List.pairwise_map.mpr hsorted
    exact this.imp Nat.le_of_lt
  have hsortEq : (chunks.map Prod.fst).insertionSort (· ≤ ·) = ordered.map Prod.fst := by
    refine List.eq_of_perm_of_sorted ?_ (List.sorted_insertionSort _ _) hsortedOrd
    exact (List.perm_insertionSort _ _).trans (hperm.map Prod.fst)
  rw [assembled, hsortEq, List.map_map]
  congr 1
  refine List.map_congr_left ?_
  intro p hp
  have h1 : chunks.lookup p.1 = ordered.lookup p.1 := partsLookup_perm hperm hndOrd p.1
  have h2 : ordered.lookup p.1 = some p.2 := by
    rw [partsLookup_eq_some hndOrd]
    exact hp
  simp [Function.comp, h1, h2]

/-- C7: whenever a final marker has been received for a filename with at
least one content chunk buffered for it — formalised as: any batch of
distinct-sequence chunks for that filename arriving in any order, followed
by its final marker — the reassembler writes to the roster directory, under
that filename, exactly the concatenation of the buffered chunks in
ascending sequence-number order, then discards that filename's buffer while
leaving every other filename's in-flight buffer unchanged. -/
theorem c7_reassembly (s : ComState) (n : String)
    (chunks ordered : List (ℕ × List ℕ))
    (hn : n ≠ "") (hnone : s.buffers.lookup n = none)
    (hperm : chunks.Perm ordered)
    (hsorted : ordered.Pairwise (fun a b => a.1 < b.1))
    (hne : ordered ≠ [])
    (hcontent : ∀ c ∈ ordered, c.2 ≠ []) :
    (processComPackets s (chunks.map (chunkPacket n) ++ [finalPacket n])).written
        = s.written ++ [(n, (ordered.map Prod.snd).flatten)] ∧
    (processComPackets s
        (chunks.map (chunkPacket n) ++ [finalPacket n])).buffers.lookup n = none ∧
    ∀ m, m ≠ n →
      (processComPackets s
          (chunks.map (chunkPacket n) ++ [finalPacket n])).buffers.lookup m
        = s.buffers.lookup m := by
  have hndOrd : (ordered.map Prod.fst).Nodup :=
    (List.pairwise_map.mpr hsorted).imp Nat.ne_of_lt
  have hndChunks : (chunks.map Prod.fst).Nodup :=
    ((hperm.map Prod.fst).nodup_iff).mpr hndOrd
  have hcontentChunks : ∀ c ∈ chunks, c.2 ≠ [] :=
    fun c hcmem => hcontent c (hperm.mem_iff.mp hcmem)
  have hinsert : insertAll [] chunks = chunks := by
    have h := insertAll_of_disjoint chunks [] hndChunks (by simp)
    simpa using h
  obtain ⟨ha, hw, hother⟩ :=
    chunks_phase n hn chunks s [] hcontentChunks (Or.inl ⟨hnone, rfl⟩)
  rw [hinsert] at ha
  have hchne : chunks ≠ [] := by
    intro hcnil
    exact hne (List.Perm.eq_nil (hcnil ▸ hperm.symm))
  rcases ha with ⟨hnil, _⟩ | ⟨sz, hsome⟩
  · exact absurd hnil hchne
  obtain ⟨hw2, hn2, hother2⟩ :=
    final_step (processComPackets s (chunks.map (chunkPacket n))) n hn chunks sz
      hsome hchne
  rw [processComPackets_append]
  refine ⟨?_, hn2, ?_⟩
  · rw [hw2, hw, assembled_eq chunks ordered hperm hsorted]
  · intro m hm
    rw [hother2 m hm, hother m hm]

/-- C7 witness: two chunks arriving out of sequence order plus a final
marker write the bytes in ascending sequence order, clear the filename's
buffer and leave the other filename's buffer untouched. -/
theorem c7_reassembly_witness :
    c7WitState.buffers.lookup "E12.scb" = none ∧
    (processComPackets c7WitState
        ([((1 : ℕ), [20, 21]), (0, [10])].map (chunkPacket "E12.scb") ++
         [finalPacket "E12.scb"])).written
      = c7WitState.written ++
        [("E12.scb", (([((0 : ℕ), [10]), (1, [20, 21])]).map Prod.snd).flatten)] ∧
    (processComPackets c7WitState
        ([((1 : ℕ), [20, 21]), (0, [10])].map (chunkPacket "E12.scb") ++
         [finalPacket "E12.scb"])).buffers.lookup "E12.scb" = none ∧
    (processComPackets c7WitState
        ([((1 : ℕ), [20, 21]), (0, [10])].map (chunkPacket "E12.scb") ++
         [finalPacket "E12.scb"])).buffers.lookup "other.scb"
      = c7WitState.buffers.lookup "other.scb" ∧
    (processComPackets c7WitState
        ([((1 : ℕ), [20, 21]), (0, [10])].map (chunkPacket "E12.scb") ++
         [finalPacket "E12.scb"])).written = [("E12.scb", [10, 20, 21])] :=
  have h := c7_reassembly c7WitState "E12.scb" [(1, [20, 21]), (0, [10])]
    [(0, [10]), (1, [20, 21])] (by decide) (by decide) (by decide) (by decide)
    (by decide) (by decide)
  ⟨by decide, h.1, h.2.1, h.2.2 "other.scb" (by decide), by decide⟩

/-- C10: the `Main.py` byte decoder and the `SwimLive.py` byte decoder are
extensionally equal: from any single shared starting state (equal display
buffers, equal stream states) and any byte sequence they produce identical
results, including identical failure behaviour. -/
theorem c10_decoders_extensionally_equal :
    ∀ (s : DecState) (bs : List ℕ), processBytesMain s bs = processBytes s bs := by
  intro s bs
  induction bs generalizing s with
  | nil => rfl
  | cons b rest ih =>
    have hb : processByteMain s b = processByte s b := rfl
    simp only [processBytesMain, processBytes, hb]
    cases processByte s b with
    | none => rfl
    | some s' => simp only [Option.some_bind]; exact ih s'

end SwimLive
